import Mathlib

/-!
Verification of the Morket scraper core against its specification.

Shallow embedding of the relevant components:
 * `src/packages/scraper/src/resilience/circuit_breaker.py`
 * `src/packages/scraper/src/resilience/rate_limiter.py`
 * `src/packages/scraper/src/services/job_service.py`
 * `src/packages/scraper/src/services/task_queue.py`
 * `src/packages/scraper/src/proxy/manager.py`
 * `src/packages/scraper/src/integration/credential_client.py`
 * `src/packages/scraper/src/integration/webhook.py`
 * `src/packages/scraper/src/models/normalizer.py`

Monotonic clocks (`time.monotonic()`) are modelled as exact rationals
passed explicitly to every operation that reads the clock; Python floats
carrying rates and timestamps are likewise modelled as rationals.
Python strings are modelled as `List Char`.
-/

namespace Morket

/-! ## Circuit breaker (`resilience/circuit_breaker.py`) -/

/-- The three circuit states (`CircuitState`). -/
inductive CircuitState
| closed
| open_
| halfOpen
deriving DecidableEq, Repr

/-- Per-domain state (`CircuitBreakerState`): ring of `(timestamp, success)`
outcomes, newest at the end, and the last state-change timestamp. -/
structure CircuitBreakerState where
  state : CircuitState
  recentCalls : List (ℚ × Bool)
  lastStateChange : ℚ
deriving DecidableEq, Repr

/-- Constructor parameters of `DomainCircuitBreaker`. -/
structure CircuitBreakerConfig where
  windowSize : ℕ
  failureThreshold : ℕ
  cooldownSeconds : ℚ
deriving DecidableEq, Repr

/-- `_get_or_create` for an unknown domain: fresh closed state with an empty
ring; `last_state_change` is the creation instant. -/
def freshCircuitState (now : ℚ) : CircuitBreakerState :=
  { state := .closed, recentCalls := [], lastStateChange := now }

/-- `while len(ring) > window_size: ring.popleft()` — keep the last
`windowSize` entries. -/
def dropToWindow (windowSize : ℕ) (l : List (ℚ × Bool)) : List (ℚ × Bool) :=
  l.drop (l.length - windowSize)

/-- `DomainCircuitBreaker._append_call`: append the outcome, trim to the
window. -/
def appendCall (cfg : CircuitBreakerConfig) (s : CircuitBreakerState)
    (timestamp : ℚ) (success : Bool) : CircuitBreakerState :=
  { s with recentCalls := dropToWindow cfg.windowSize (s.recentCalls ++ [(timestamp, success)]) }

/-- `DomainCircuitBreaker.can_call` for a known domain: returns the boolean
answer and the (possibly updated) per-domain state.  An open domain whose
cooldown has elapsed transitions to half-open. -/
def canCall (cfg : CircuitBreakerConfig) (s : CircuitBreakerState) (now : ℚ) :
    Bool × CircuitBreakerState :=
  match s.state with
  | .closed => (true, s)
  | .open_ =>
      if now - s.lastStateChange ≥ cfg.cooldownSeconds then
        (true, { s with state := .halfOpen, lastStateChange := now })
      else
        (false, s)
  | .halfOpen => (true, s)

/-- `DomainCircuitBreaker.record_success`. -/
def recordSuccess (cfg : CircuitBreakerConfig) (s : CircuitBreakerState) (now : ℚ) :
    CircuitBreakerState :=
  match s.state with
  | .halfOpen => { s with state := .closed, lastStateChange := now, recentCalls := [] }
  | _ => appendCall cfg s now true

/-- Failure count in the ring (`sum(1 for _, success in recent_calls if not success)`). -/
def failureCount (l : List (ℚ × Bool)) : ℕ :=
  (l.filter (fun c => !c.2)).length

/-- `DomainCircuitBreaker.record_failure`. -/
def recordFailure (cfg : CircuitBreakerConfig) (s : CircuitBreakerState) (now : ℚ) :
    CircuitBreakerState :=
  match s.state with
  | .halfOpen => { s with state := .open_, lastStateChange := now, recentCalls := [] }
  | _ =>
      let s1 := appendCall cfg s now false
      if s1.state = .closed then
        if failureCount s1.recentCalls ≥ cfg.failureThreshold then
          { s1 with state := .open_, lastStateChange := now }
        else s1
      else s1

/-- Fold a sequence of `record_failure` calls at the given instants. -/
def recordFailures (cfg : CircuitBreakerConfig) (s : CircuitBreakerState)
    (times : List ℚ) : CircuitBreakerState :=
  times.foldl (fun st t => recordFailure cfg st t) s

/-- Fold a sequence of `record_success` calls at the given instants. -/
def recordSuccesses (cfg : CircuitBreakerConfig) (s : CircuitBreakerState)
    (times : List ℚ) : CircuitBreakerState :=
  times.foldl (fun st t => recordSuccess cfg st t) s

/-! ## Token-bucket rate limiter (`resilience/rate_limiter.py`) -/

/-- `TokenBucket` dataclass. -/
structure TokenBucket where
  tokens : ℚ
  maxTokens : ℕ
  refillRate : ℚ
  lastRefill : ℚ
  reducedUntil : Option ℚ
  originalRefillRate : ℚ
deriving DecidableEq, Repr

/-- `DomainRateLimiter._refill`: no-op when no time has elapsed; otherwise
restore the original rate if an active backoff has expired, then add
`elapsed × refill_rate` tokens clamped to `max_tokens`. -/
def refillBucket (b : TokenBucket) (now : ℚ) : TokenBucket :=
  let elapsed := now - b.lastRefill
  if elapsed ≤ 0 then b
  else
    let b1 :=
      match b.reducedUntil with
      | some r =>
          if now ≥ r then
            { b with refillRate := b.originalRefillRate, reducedUntil := none }
          else b
      | none => b
    { b1 with
        tokens := min (b1.tokens + elapsed * b1.refillRate) (b1.maxTokens : ℚ),
        lastRefill := now }

/-- `DomainRateLimiter.reduce_rate`: always reduce from `original_refill_rate`
so repeated reductions do not compound; stamp the backoff expiry. -/
def reduceRate (b : TokenBucket) (factor : ℚ) (durationSeconds : ℚ) (now : ℚ) :
    TokenBucket :=
  { b with
      refillRate := b.originalRefillRate * factor,
      reducedUntil := some (now + durationSeconds) }

/-- Iterate `reduce_rate` with the same factor at the given instants. -/
def reduceRates (b : TokenBucket) (factor : ℚ) (durationSeconds : ℚ)
    (times : List ℚ) : TokenBucket :=
  times.foldl (fun st t => reduceRate st factor durationSeconds t) b

/-! ## Job service (`services/job_service.py`) -/

/-- `TaskStatus` enum. -/
inductive TaskStatus
| queued
| running
| completed
| failed
deriving DecidableEq, Repr

/-- `JobStatus` enum. -/
inductive JobStatus
| queued
| running
| completed
| partiallyCompleted
| failed
| cancelled
deriving DecidableEq, Repr

/-- The counters and status of a `ScrapeJobState` (the fields
`update_task_result` and `cancel_job` read and write). -/
structure JobCounters where
  status : JobStatus
  totalTasks : ℕ
  completedTasks : ℕ
  failedTasks : ℕ
deriving DecidableEq, Repr

/-- `JobService.compute_final_status`. -/
def computeFinalStatus (job : JobCounters) : JobStatus :=
  if job.failedTasks = 0 then .completed
  else if job.completedTasks = 0 then .failed
  else .partiallyCompleted

/-- `JobService.update_task_result`, restricted to the parent job's fields:
promote a queued job to running, bump the counter matching the task's
terminal status, and when `completed + failed ≥ total` overwrite the status
with the derived final status. -/
def updateTaskResult (job : JobCounters) (taskStatus : TaskStatus) : JobCounters :=
  let j1 := if job.status = .queued then { job with status := .running } else job
  let j2 :=
    match taskStatus with
    | .completed => { j1 with completedTasks := j1.completedTasks + 1 }
    | .failed => { j1 with failedTasks := j1.failedTasks + 1 }
    | _ => j1
  if j2.completedTasks + j2.failedTasks ≥ j2.totalTasks then
    { j2 with status := computeFinalStatus j2 }
  else j2

/-- The status write performed by `JobService.cancel_job` after
`cancel_job_tasks` returns (the queued-task callbacks it triggers are
separate `updateTaskResult` applications that happen before this write). -/
def cancelJobStatus (job : JobCounters) : JobCounters :=
  { job with status := .cancelled }

/-! ## Task queue entries and sentinel (`services/task_queue.py`) -/

/-- `_PriorityEntry` priority key data: `priority = job_size` (0 for
standalone) and `created_ts = task.created_at.timestamp()`. -/
structure PriorityEntry where
  priority : ℤ
  createdTs : ℚ
deriving DecidableEq, Repr

/-- An object placed on the `asyncio.PriorityQueue`: either a real
`_PriorityEntry` or the drain `_Sentinel`. -/
inductive QueueItem
| entry (e : PriorityEntry)
| sentinel
deriving DecidableEq, Repr

/-- Python attribute access `x.priority`: `_Sentinel` defines no `priority`
attribute, so the access raises `AttributeError` (modelled as `none`). -/
def QueueItem.priorityAttr : QueueItem → Option ℤ
  | .entry e => some e.priority
  | .sentinel => none

/-- Python attribute access `x.created_ts`; absent on `_Sentinel`. -/
def QueueItem.createdTsAttr : QueueItem → Option ℚ
  | .entry e => some e.createdTs
  | .sentinel => none

/-- `_PriorityEntry.__lt__(self, other)`: compares `priority`, tie-break on
`created_ts`.  `none` models the `AttributeError` raised when `other` lacks
the attributes (i.e. is a `_Sentinel`). -/
def entryLt (self : PriorityEntry) (other : QueueItem) : Option Bool :=
  match other.priorityAttr with
  | none => none
  | some p =>
      if self.priority ≠ p then some (decide (self.priority < p))
      else
        match other.createdTsAttr with
        | none => none
        | some t => some (decide (self.createdTs < t))

/-- `_Sentinel.__lt__`: returns `False` whatever the operand is. -/
def sentinelLt (_other : QueueItem) : Bool :=
  false

/-- `_Sentinel.__gt__`: returns `True` whatever the operand is. -/
def sentinelGt (_other : QueueItem) : Bool :=
  true

/-! ## Worker handling of cancelled-job tasks (`TaskQueue._worker_loop`) -/

/-- The task fields the worker loop's cancelled-job branch touches. -/
structure WorkerTask where
  jobId : Option String
  status : TaskStatus
  error : Option String
  completedAt : Option ℚ
deriving DecidableEq, Repr

/-- Outcome of the dequeue step for one entry: either the cancelled-job
branch ran (`continue`, executor never invoked) recording whether the
completion callback fired, or the worker fell through to
`self._executor.execute(task)`. -/
inductive WorkerAction
| skippedCancelled (task : WorkerTask) (callbackFired : Bool)
| executed (task : WorkerTask)
deriving DecidableEq, Repr

/-- The dispatch decision of `_worker_loop` for a dequeued real entry:
`if task.job_id and task.job_id in self._cancelled_jobs:` (note the Python
truthiness test: an empty-string job id never matches); inside, a task not
already failed is marked failed with error "Cancelled", `completed_at` is
stamped and the completion callback fires once; an already-failed task is
skipped silently. -/
def workerDispatch (cancelledJobs : List String) (task : WorkerTask) (now : ℚ) :
    WorkerAction :=
  match task.jobId with
  | some j =>
      if j ≠ "" ∧ j ∈ cancelledJobs then
        if task.status ≠ .failed then
          .skippedCancelled
            { task with status := .failed, error := some "Cancelled", completedAt := some now }
            true
        else
          .skippedCancelled task false
      else .executed task
  | none => .executed task

/-! ## Proxy manager (`proxy/manager.py`) -/

/-- `ProxyEndpoint` fields used by selection and health tracking.  The
`last_used_domains` dict is an insertion-ordered association list. -/
structure ProxyEndpoint where
  url : String
  isHealthy : Bool
  successCount : ℕ
  failureCount : ℕ
  lastUsedDomains : List (String × ℚ)
deriving DecidableEq, Repr

/-- Python `dict.get(domain)`. -/
def lookupDomain (m : List (String × ℚ)) (d : String) : Option ℚ :=
  (m.find? (fun p => p.1 = d)).map (·.2)

/-- Python `dict[domain] = t` (update in place, else append). -/
def setDomain (m : List (String × ℚ)) (d : String) (t : ℚ) : List (String × ℚ) :=
  if (m.find? (fun p => p.1 = d)).isSome then
    m.map (fun p => if p.1 = d then (p.1, t) else p)
  else m ++ [(d, t)]

/-- `ProxyManager` state read and written by `select`. -/
structure ProxyManagerState where
  proxies : List ProxyEndpoint
  index : ℕ
  domainCooldownSeconds : ℚ
deriving DecidableEq, Repr

/-- Whether one loop iteration of `select` accepts this proxy: it is
skipped when unhealthy, or when `now - last_used < cooldown` for the
target domain. -/
def proxyEligible (cooldown : ℚ) (now : ℚ) (domain : String) (p : ProxyEndpoint) : Bool :=
  p.isHealthy &&
    match lookupDomain p.lastUsedDomains domain with
    | none => true
    | some lastUsed => !(now - lastUsed < cooldown)

/-- The `for _ in range(pool_size)` scan of `ProxyManager.select`: starting
at `_index`, examine `fuel` positions; the cursor advances
(`_index = (_index + 1) % pool_size`) on every iteration, including skips.
Returns the position of the first eligible proxy (if any) and the final
cursor. -/
def selectScan (proxies : List ProxyEndpoint) (cooldown : ℚ) (domain : String)
    (now : ℚ) : ℕ → ℕ → Option ℕ × ℕ
  | idx, 0 => (none, idx)
  | idx, fuel + 1 =>
      match proxies.get? (idx % proxies.length) with
      | none => (none, (idx + 1) % proxies.length)
      | some p =>
          if proxyEligible cooldown now domain p then
            (some (idx % proxies.length), (idx + 1) % proxies.length)
          else selectScan proxies cooldown domain now ((idx + 1) % proxies.length) fuel

/-- `ProxyManager.select`: raises `no-healthy-proxies` (modelled as `none`)
on an empty pool or after a fruitless full rotation; otherwise stamps
`last_used_domains[target_domain] = now` on the selected proxy and returns
it.  The cursor mutation of the scan persists in both cases. -/
def proxySelect (st : ProxyManagerState) (domain : String) (now : ℚ) :
    Option ProxyEndpoint × ProxyManagerState :=
  if st.proxies.isEmpty then (none, st)
  else
    match selectScan st.proxies st.domainCooldownSeconds domain now st.index st.proxies.length with
    | (none, idx1) => (none, { st with index := idx1 })
    | (some pos, idx1) =>
        match st.proxies.get? pos with
        | none => (none, { st with index := idx1 })
        | some p =>
            let p1 := { p with lastUsedDomains := setDomain p.lastUsedDomains domain now }
            (some p1, { st with proxies := st.proxies.set pos p1, index := idx1 })

/-- Whether the proxy at position `pos` exists and passes `select`'s
filter (healthy and outside the per-domain cooldown). -/
def eligAt (proxies : List ProxyEndpoint) (cooldown : ℚ) (domain : String) (now : ℚ)
    (pos : ℕ) : Bool :=
  match proxies.get? pos with
  | some p => proxyEligible cooldown now domain p
  | none => false

/-! ## Credential client (`integration/credential_client.py`) -/

/-- What one HTTP attempt inside `_fetch_with_retries` produces: a transport
error (`httpx.ConnectError` / `TimeoutException` / `ConnectTimeout`) or a
response with a status code and body. -/
inductive AttemptOutcome (α : Type)
| transportError
| response (statusCode : ℕ) (body : α)
deriving DecidableEq, Repr

/-- Result of `_fetch_with_retries`: the parsed body, the
`CredentialNotFoundError` raised on 404, or the final generic
`RuntimeError` after retries are exhausted. -/
inductive FetchResult (α : Type)
| success (v : α)
| credentialNotFound
| runtimeError
deriving DecidableEq, Repr

/-- Whether the attempt outcome takes a retry branch: transport errors and
`raise_for_status` errors (status ≥ 400 other than 404, which raises
`CredentialNotFoundError` before `raise_for_status` runs). -/
def retryableOutcome {α : Type} : AttemptOutcome α → Bool
  | .transportError => true
  | .response code _ => decide (400 ≤ code) && decide (code ≠ 404)

/-- The retry loop of `_fetch_with_retries` from attempt number `attempt`
with `fuel = max_retries - attempt` iterations left.  Returns the result and
the list of backoff sleeps performed (`2**attempt` seconds, slept only when
another attempt remains).  A 404 raises immediately with no further
attempt and no sleep. -/
def fetchGo {α : Type} (outcomes : ℕ → AttemptOutcome α) (maxRetries : ℕ) :
    ℕ → ℕ → FetchResult α × List ℕ
  | _, 0 => (.runtimeError, [])
  | attempt, fuel + 1 =>
      match outcomes attempt with
      | .response code body =>
          if code = 404 then (.credentialNotFound, [])
          else if 400 ≤ code then
            if attempt < maxRetries - 1 then
              let r := fetchGo outcomes maxRetries (attempt + 1) fuel
              (r.1, 2 ^ attempt :: r.2)
            else
              let r := fetchGo outcomes maxRetries (attempt + 1) fuel
              (r.1, r.2)
          else (.success body, [])
      | .transportError =>
          if attempt < maxRetries - 1 then
            let r := fetchGo outcomes maxRetries (attempt + 1) fuel
            (r.1, 2 ^ attempt :: r.2)
          else
            let r := fetchGo outcomes maxRetries (attempt + 1) fuel
            (r.1, r.2)

/-- `CredentialClient._fetch_with_retries`, driven by the sequence of
attempt outcomes the backend would return. -/
def fetchWithRetries {α : Type} (outcomes : ℕ → AttemptOutcome α) (maxRetries : ℕ) :
    FetchResult α × List ℕ :=
  fetchGo outcomes maxRetries 0 maxRetries

/-! ## Strings (`models/normalizer.py` helpers)

Python strings are `List Char`.  `pyIsSpace` is the ASCII core of Python's
`\s` character class and of `str.strip`'s default set. -/

/-- Python string type. -/
abbrev Str := List Char

/-- ASCII whitespace as matched by `\s` and stripped by `str.strip()`. -/
def pyIsSpace (c : Char) : Bool :=
  c = ' ' || c = '\t' || c = '\n' || c = '\r' || c = Char.ofNat 11 || c = Char.ofNat 12

/-- After at least one non-`>` character has been seen inside a candidate
tag, look for the closing `>`; returns the remainder after it. -/
def tagRest : Str → Option Str
  | [] => none
  | c :: cs => if c = '>' then some cs else tagRest cs

/-- Whether a match of `[^>]+>` starts here (the part of `_HTML_TAG_RE`
after the opening `<`); returns the remainder after the closing `>`. -/
def scanTag : Str → Option Str
  | [] => none
  | c :: cs => if c = '>' then none else tagRest cs

/-- Single-pass equivalent of `re.sub(r"<[^>]+>", "", text)`
(`strip_html`).  The accumulator holds the reversed characters seen since
an unclosed `<`: a closing `>` after at least one inner character drops the
whole candidate tag; `<>` and a `<` never followed by `>` are kept
verbatim, exactly as the regex leaves them. -/
def stripHtmlGo : Str → Option Str → Str
  | [], none => []
  | [], some acc => '<' :: acc.reverse
  | c :: rest, none =>
      if c = '<' then stripHtmlGo rest (some [])
      else c :: stripHtmlGo rest none
  | c :: rest, some acc =>
      if c = '>' then
        if acc.isEmpty then '<' :: '>' :: stripHtmlGo rest none
        else stripHtmlGo rest none
      else stripHtmlGo rest (some (c :: acc))

/-- `strip_html`. -/
def stripHtml (l : Str) : Str :=
  stripHtmlGo l none

/-- `re.sub(r"\s+", " ", text)`: collapse each maximal whitespace run into
a single space. -/
def collapseWs : Str → Str
  | [] => []
  | c :: rest =>
      if pyIsSpace c then ' ' :: collapseWs (rest.dropWhile pyIsSpace)
      else c :: collapseWs rest
termination_by l => l.length
decreasing_by
  all_goals simp only [List.length_cons]
  · exact Nat.lt_succ_of_le (List.Sublist.length_le (List.dropWhile_sublist _))
  · exact Nat.lt_succ_self _

/-- Remove trailing whitespace. -/
def dropTrailing (l : Str) : Str :=
  (l.reverse.dropWhile pyIsSpace).reverse

/-- Python `str.strip()`. -/
def pyStrip (l : Str) : Str :=
  dropTrailing (l.dropWhile pyIsSpace)

/-- `normalize_whitespace`: collapse whitespace runs, then trim. -/
def normalizeWhitespace (l : Str) : Str :=
  pyStrip (collapseWs l)

/-- `clean_text`: strip HTML tags, then normalize whitespace. -/
def cleanText (l : Str) : Str :=
  normalizeWhitespace (stripHtml l)

/-- Whether the string contains a substring matching `<[^>]+>` (an HTML
tag as `_HTML_TAG_RE` defines one). -/
def hasTag : Str → Bool
  | [] => false
  | c :: rest => (c = '<' && (scanTag rest).isSome) || hasTag rest

/-- Specification predicate for the `_HTML_TAG_RE` invariant: wherever a
`<` occurs, it is at the very end, immediately followed by `>`, or never
followed by a `>` — the three shapes `re.sub(r"<[^>]+>", "", ·)` can
leave, and exactly the shapes in which no further `<[^>]+>` match exists. -/
def NoOpenTag (l : Str) : Prop :=
  ∀ a b, l = a ++ '<' :: b → b = [] ∨ (∃ b2, b = '>' :: b2) ∨ '>' ∉ b

/-! ## URL normalization (`normalize_url` and the `urllib.parse` calls
it makes)

Percent-encoding is modelled per character: characters above `0xFF` are
carried through literally instead of being split into UTF-8 bytes. -/

/-- Uppercase hex digit of a value `< 16` (as `urllib.parse.quote` emits). -/
def hexDigitChar (n : ℕ) : Char :=
  if n < 10 then Char.ofNat (48 + n) else Char.ofNat (55 + n)

/-- Value of a hex digit character. -/
def hexVal (c : Char) : ℕ :=
  if '0' ≤ c ∧ c ≤ '9' then c.toNat - 48
  else if 'a' ≤ c ∧ c ≤ 'f' then c.toNat - 87
  else if 'A' ≤ c ∧ c ≤ 'F' then c.toNat - 55
  else 0

/-- Whether a character is a hex digit. -/
def isHexDigitChar (c : Char) : Bool :=
  ('0' ≤ c && c ≤ '9') || ('a' ≤ c && c ≤ 'f') || ('A' ≤ c && c ≤ 'F')

/-- The `name.replace('+', ' ')` step `parse_qsl` applies before
unquoting. -/
def plusToSpace (c : Char) : Char :=
  if c = '+' then ' ' else c

/-- `urllib.parse.unquote`: percent-decode; a malformed escape keeps its
`%` literally.  Decoding is per byte value (characters above `0xFF` are
out of scope for the query keys at issue). -/
def percentDecode : Str → Str
  | [] => []
  | c :: rest =>
      if c = '%' then
        match rest with
        | h1 :: h2 :: rest2 =>
            if isHexDigitChar h1 && isHexDigitChar h2 then
              Char.ofNat (16 * hexVal h1 + hexVal h2) :: percentDecode rest2
            else '%' :: percentDecode (h1 :: h2 :: rest2)
        | [h1] => '%' :: percentDecode [h1]
        | [] => ['%']
      else c :: percentDecode rest

/-- `nv.replace('+', ' ')` followed by `urllib.parse.unquote`, the
treatment `parse_qsl` gives every name and value. -/
def unquotePlus (l : Str) : Str :=
  percentDecode (l.map plusToSpace)

/-- The characters `urllib.parse.quote` never escapes
(ASCII letters, digits, `_.-~`). -/
def isUrlSafe (c : Char) : Bool :=
  c.isAlphanum || c = '_' || c = '.' || c = '-' || c = '~'

/-- `urllib.parse.quote_plus` with `safe=''` on one character. -/
def quotePlusChar (c : Char) : Str :=
  if isUrlSafe c then [c]
  else if c = ' ' then ['+']
  else if c.toNat < 256 then ['%', hexDigitChar (c.toNat / 16), hexDigitChar (c.toNat % 16)]
  else [c]

/-- `urllib.parse.quote_plus` with `safe=''`. -/
def quotePlus (l : Str) : Str :=
  l.flatMap quotePlusChar

/-- `str.split(sep)` on a single-character separator. -/
def splitChar (sep : Char) : Str → List Str
  | [] => [[]]
  | c :: rest =>
      match splitChar sep rest with
      | [] => if c = sep then [[], []] else [[c]]
      | h :: t => if c = sep then [] :: h :: t else (c :: h) :: t

/-- `str.join`-style intercalation with a single-character separator. -/
def joinChar (sep : Char) : List Str → Str
  | [] => []
  | [h] => h
  | h :: t => h ++ sep :: joinChar sep t

/-- One `parse_qsl` loop iteration (with `keep_blank_values=True`): skip
empty segments, split on the first `=` (a segment with no `=` keeps its
whole text as the name and gets a blank value), unquote name and value. -/
def parsePair (item : Str) : Option (Str × Str) :=
  if item.isEmpty then none
  else
    let key := item.takeWhile (· ≠ '=')
    match item.dropWhile (· ≠ '=') with
    | '=' :: v => some (unquotePlus key, unquotePlus v)
    | _ => some (unquotePlus item, [])

/-- `urllib.parse.parse_qsl(qs, keep_blank_values=True)`. -/
def parseQsl (q : Str) : List (Str × Str) :=
  (splitChar '&' q).filterMap parsePair

/-- `parse_qs` grouping: append the value to an existing key's list, else
add a new key (Python dicts preserve first-occurrence key order). -/
def addPairToGroups (acc : List (Str × List Str)) (kv : Str × Str) :
    List (Str × List Str) :=
  if (acc.find? (fun g => g.1 = kv.1)).isSome then
    acc.map (fun g => if g.1 = kv.1 then (g.1, g.2 ++ [kv.2]) else g)
  else acc ++ [(kv.1, [kv.2])]

/-- `urllib.parse.parse_qs(qs, keep_blank_values=True)`. -/
def parseQs (q : Str) : List (Str × List Str) :=
  (parseQsl q).foldl addPairToGroups []

/-- `_TRACKING_PARAMS`. -/
def trackingParams : List Str :=
  ["utm_source", "utm_medium", "utm_campaign", "utm_content", "utm_term",
   "fbclid", "gclid"].map String.data

/-- `str.lower()` (per-character). -/
def lowerStr (k : Str) : Str :=
  k.map Char.toLower

/-- The filter condition of `normalize_url`: the key (lowercased) is in the
fixed tracking set or starts with `utm_`. -/
def isTrackingKey (k : Str) : Bool :=
  trackingParams.contains (lowerStr k) || "utm_".data.isPrefixOf (lowerStr k)

/-- The dict comprehension in `normalize_url`: keep only non-tracking keys. -/
def filterTracking (g : List (Str × List Str)) : List (Str × List Str) :=
  g.filter (fun kv => !(isTrackingKey kv.1))

/-- `urllib.parse.urlencode(filtered, doseq=True)`: one `k=v` item per
value in each key's list, keys and values quoted, joined with `&`. -/
def encodeQuery (g : List (Str × List Str)) : Str :=
  joinChar '&'
    ((g.map (fun kv => kv.2.map (fun v => quotePlus kv.1 ++ '=' :: quotePlus v))).flatten)

/-- The scheme-fixing step of `normalize_url`: URLs starting with none of
`http://`, `https://`, `//` get `https://` prepended; scheme-relative URLs
get `https:` prepended. -/
def ensureScheme (u : Str) : Str :=
  if "http://".data.isPrefixOf u || "https://".data.isPrefixOf u then u
  else if "//".data.isPrefixOf u then "https:".data ++ u
  else "https://".data ++ u

/-- Drop the `http://` / `https://` prefix `ensureScheme` guarantees
(what `urlsplit` does after reading the scheme and the `//`). -/
def dropSchemePrefix (u : Str) : Str :=
  if "https://".data.isPrefixOf u then u.drop 8 else u.drop 7

/-- Characters ending the netloc in `urlsplit` (`_splitnetloc`). -/
def notNetlocEnd (c : Char) : Bool :=
  c ≠ '/' && c ≠ '?' && c ≠ '#'

/-- Characters ending the path (start of query or fragment). -/
def notPathEnd (c : Char) : Bool :=
  c ≠ '?' && c ≠ '#'

/-- The query component: what follows a leading `?`, up to a `#`
(`urlsplit` splits the fragment off the first `#` before reading the
query after the first `?`). -/
def parseQueryPart : Str → Str
  | '?' :: t => t.takeWhile (· ≠ '#')
  | _ => []

/-- The query rewriting of `normalize_url`: an empty query stays empty
(`if parsed.query:`), otherwise `parse_qs` / filter / `urlencode`. -/
def rewriteQuery (query : Str) : Str :=
  if query.isEmpty then ([] : Str)
  else encodeQuery (filterTracking (parseQs query))

/-- `urlunsplit(("https", netloc, path, params, query, ""))`: the `//`
part is emitted unless the netloc is empty and the path starts with `//`;
the query is appended only when non-empty; the fragment is empty. -/
def unsplitHttps (netloc path newQuery : Str) : Str :=
  let body :=
    if netloc.isEmpty && "//".data.isPrefixOf path then path
    else "//".data ++ netloc ++ path
  "https:".data ++ body ++ (if newQuery.isEmpty then [] else '?' :: newQuery)

/-- Decimal value of an ASCII digit string. -/
def digitsVal (l : Str) : ℕ :=
  l.foldl (fun acc c => 10 * acc + (c.toNat - 48)) 0

/-- `ipaddress.IPv4Address._parse_octet`: non-empty, ASCII decimal digits
only, at most 3 of them, no leading zero except `0` itself, value at most
255. -/
def ipv4OctetValid (o : Str) : Bool :=
  !o.isEmpty && o.all (fun c => '0' ≤ c && c ≤ '9') && decide (o.length ≤ 3) &&
    (decide (o = ['0']) || decide (o.head? ≠ some '0')) && decide (digitsVal o ≤ 255)

/-- `ipaddress.IPv4Address` from a string: exactly four `.`-separated
strict octets (the `/` check is subsumed: `/` is not a digit). -/
def ipv4Valid (s : Str) : Bool :=
  decide ((splitChar '.' s).length = 4) && (splitChar '.' s).all ipv4OctetValid

/-- `ipaddress.IPv6Address._parse_hextet`: hex digits only, at most 4, and
non-empty (`int('', 16)` raises). -/
def hextetValid (h : Str) : Bool :=
  !h.isEmpty && h.all isHexDigitChar && decide (h.length ≤ 4)

/-- The structural part of `IPv6Address._ip_int_from_string` after the
IPv4-suffix substitution: at most 9 `:`-separated parts, at most one empty
interior part (the `::`), an empty endpoint only adjacent to the `::`, at
least one zero-group skipped, every copied part a valid hextet. -/
def ipv6PartsValid (parts : List Str) : Bool :=
  decide (parts.length ≤ 9) &&
    (let n := parts.length
     let interior := (parts.drop 1).dropLast
     let emptyCount := (interior.filter (fun p => p.isEmpty)).length
     if 2 ≤ emptyCount then false
     else if emptyCount = 1 then
       let skip := 1 + interior.findIdx (fun p => p.isEmpty)
       let headEmpty := (parts.head?.getD [' ']).isEmpty
       let lastEmpty := (parts.getLast?.getD [' ']).isEmpty
       (if headEmpty then decide (skip = 1) else true) &&
         (if lastEmpty then decide (skip = n - 2) else true) &&
         (let hi := skip - (if headEmpty then 1 else 0)
          let lo := (n - skip - 1) - (if lastEmpty then 1 else 0)
          decide (hi + lo ≤ 7) && (parts.take hi).all hextetValid &&
            (parts.drop (n - lo)).all hextetValid)
     else
       decide (n = 8) && !(parts.head?.getD []).isEmpty &&
         !(parts.getLast?.getD []).isEmpty && parts.all hextetValid)

/-- `IPv6Address._ip_int_from_string` validity: non-empty, at least two
colons; a final part holding a `.` must be a valid IPv4 address and stands
for two hextets (modelled by two `0` hextets, which preserves validity). -/
def ipv6AddrValid (s : Str) : Bool :=
  if s.isEmpty then false
  else
    let parts0 := splitChar ':' s
    if parts0.length < 3 then false
    else
      let last := parts0.getLast?.getD []
      if last.contains '.' then
        ipv4Valid last && ipv6PartsValid (parts0.dropLast ++ [['0'], ['0']])
      else ipv6PartsValid parts0

/-- `ipaddress.IPv6Address` from a string: no `/`, an optional non-empty
`%`-free scope id after the first `%`, then a valid address. -/
def ipv6Valid (s : Str) : Bool :=
  if s.contains '/' then false
  else if s.contains '%' then
    (let scope := (s.dropWhile (· ≠ '%')).drop 1
     !scope.isEmpty && !scope.contains '%' && ipv6AddrValid (s.takeWhile (· ≠ '%')))
  else ipv6AddrValid s

/-- `urllib.parse._check_bracketed_host`: a host starting with `v` must
match `\Av[a-fA-F0-9]+\..+\Z` (the `.` of the regex excludes a newline);
any other host must be accepted by `ipaddress.ip_address` and not be an
IPv4 address. -/
def bracketedHostOk (host : Str) : Bool :=
  match host with
  | 'v' :: t =>
      !(t.takeWhile isHexDigitChar).isEmpty &&
        (match t.dropWhile isHexDigitChar with
         | '.' :: r => !r.isEmpty && r.all (fun c => c ≠ '\n')
         | _ => false)
  | _ => !ipv4Valid host && ipv6Valid host

/-- The bracket checks `urlsplit` runs on the netloc: a `[` without `]` or
a `]` without `[` is an error (`Invalid IPv6 URL`); with both, the text
between the first `[` and the next `]` (`partition`-style) must pass
`_check_bracketed_host`. -/
def netlocBracketsOk (netloc : Str) : Bool :=
  if netloc.contains '[' then
    if netloc.contains ']' then
      bracketedHostOk (((netloc.dropWhile (· ≠ '[')).drop 1).takeWhile (· ≠ ']'))
    else false
  else !netloc.contains ']'

/-- `urllib.parse._checknetloc`: returns silently on an empty or all-ASCII
netloc; on any other netloc the NFKC-normalization comparison is abstracted
by the `nfkcRaises` oracle (true = the check raises `ValueError`). -/
def checknetlocRaises (nfkcRaises : Str → Bool) (netloc : Str) : Bool :=
  if netloc.isEmpty || netloc.all (fun c => c.toNat ≤ 127) then false
  else nfkcRaises netloc

/-- `urllib.parse._splitparams`: with a `/` in the path, split at the
first `;` at or after the last `/` (no such `;` leaves the path whole);
without a `/`, split at the first `;`. -/
def splitParams (path : Str) : Str × Str :=
  if path.contains '/' then
    (let tail := (path.reverse.takeWhile (· ≠ '/')).reverse
     if tail.contains ';' then
       (path.take (path.length - tail.length) ++ tail.takeWhile (· ≠ ';'),
         (tail.dropWhile (· ≠ ';')).drop 1)
     else (path, []))
  else (path.takeWhile (· ≠ ';'), (path.dropWhile (· ≠ ';')).drop 1)

/-- The composition of `urlparse`'s params split (taken for scheme `https`
/ `http`, both in `uses_params`, whenever the path holds a `;`) with
`urlunparse`'s re-attachment (`url = "%s;%s" % (url, params)` only when
`params` is non-empty): a trailing empty params part is dropped. -/
def paramsRoundtrip (path : Str) : Str :=
  if path.contains ';' then
    (let pp := splitParams path
     if pp.2.isEmpty then pp.1 else pp.1 ++ ';' :: pp.2)
  else path

/-- The body of `normalize_url` on a stripped non-empty URL: force an
`https` scheme, split per `urlsplit` (removal of tab/CR/LF, then
netloc/path/query/fragment, with the netloc bracket checks and
`_checknetloc` raising `ValueError`, modelled as `none`), split the params
off the path, drop tracking query parameters, drop the fragment,
reassemble. -/
def normalizeUrlCore (nfkcRaises : Str → Bool) (u : Str) : Option Str :=
  let u1 := ensureScheme u
  let u2 := u1.filter (fun c => c ≠ '\t' && c ≠ '\r' && c ≠ '\n')
  let rest := dropSchemePrefix u2
  let netloc := rest.takeWhile notNetlocEnd
  let afterNetloc := rest.dropWhile notNetlocEnd
  if netlocBracketsOk netloc && !checknetlocRaises nfkcRaises netloc then
    some (unsplitHttps netloc (paramsRoundtrip (afterNetloc.takeWhile notPathEnd))
      (rewriteQuery (parseQueryPart (afterNetloc.dropWhile notPathEnd))))
  else none

/-- `normalize_url`: trim, return empty input unchanged, else rewrite;
`none` is the `ValueError` `urlparse` raises, which propagates out of the
normalizer (it catches only `ValidationError`). -/
def normalizeUrl (nfkcRaises : Str → Bool) (url : Str) : Option Str :=
  let u := pyStrip url
  if u.isEmpty then some u else normalizeUrlCore nfkcRaises u

/-- The decoded keys of the query component of a rendered URL: everything
after the first `?`, split on `&`, each non-empty item's part before the
first `=`, unquoted (how `parse_qsl` would read the result back). -/
def urlQueryKeys (u : Str) : List Str :=
  match u.dropWhile (· ≠ '?') with
  | '?' :: q => (splitChar '&' q).filterMap (fun item =>
      if item.isEmpty then none else some (unquotePlus (item.takeWhile (· ≠ '='))))
  | _ => []

/-! ## Result normalizer mapping (`ResultNormalizer.normalize`) -/

/-- `NormalizedLocation` schema (`models/schemas.py`). -/
structure NormalizedLocation where
  city : Option Str
  stateRegion : Option Str
  country : Option Str
  raw : Option Str
deriving DecidableEq, Repr

/-- Python `s or None` for a string. -/
def orNone (s : Str) : Option Str :=
  if s.isEmpty then none else some s

/-- `normalize_location`: clean, split on commas, strip and drop empty
parts, assign city/state/country by part count; `raw` keeps the original
input. -/
def normalizeLocation (raw : Str) : NormalizedLocation :=
  let cleaned := cleanText raw
  let parts := ((splitChar ',' cleaned).map pyStrip).filter (fun p => !p.isEmpty)
  match parts with
  | [] => { city := none, stateRegion := none, country := none, raw := some raw }
  | [c1] => { city := orNone c1, stateRegion := none, country := none, raw := some raw }
  | [c1, c2] => { city := orNone c1, stateRegion := none, country := orNone c2, raw := some raw }
  | c1 :: c2 :: c3 :: _ =>
      { city := orNone c1, stateRegion := orNone c2, country := orNone c3, raw := some raw }

/-- A value of the raw extraction dict: `None`, a string, an
already-structured location dict (the `value.get("city", "")` fields), or
any other value (numbers, lists, …) which the loop passes through. -/
inductive RawValue
| vNone
| vStr (s : Str)
| vLocDict (city stateRegion country : Str) (raw : Option Str)
| vOther
deriving DecidableEq, Repr

/-- A value of the normalized dict handed to schema validation. -/
inductive NormValue
| nNone
| nStr (s : Str)
| nLoc (loc : NormalizedLocation)
| nPassthrough (v : RawValue)
deriving DecidableEq, Repr

/-- The `_URL_FIELDS` / `_LOCATION_FIELDS` entries for one target type. -/
structure FieldSets where
  urlFields : List String
  locFields : List String
deriving DecidableEq, Repr

/-- `_URL_FIELDS` / `_LOCATION_FIELDS` for `TargetType.LINKEDIN_PROFILE`. -/
def linkedinProfileFields : FieldSets :=
  { urlFields := ["profile_url"], locFields := ["location"] }

/-- `_URL_FIELDS` / `_LOCATION_FIELDS` for `TargetType.COMPANY_WEBSITE`. -/
def companyWebsiteFields : FieldSets :=
  { urlFields := ["website_url"], locFields := ["headquarters"] }

/-- `_URL_FIELDS` / `_LOCATION_FIELDS` for `TargetType.JOB_POSTING`. -/
def jobPostingFields : FieldSets :=
  { urlFields := ["posting_url"], locFields := ["location"] }

/-- One iteration of the `for key, value in raw_data.items()` loop of
`ResultNormalizer.normalize`: `None` passes through; location fields take
`normalize_location` (strings) or a cleaned `NormalizedLocation` (dicts);
URL fields take `normalize_url` on strings, whose `ValueError` (`none`)
propagates so the normalizer produces no output; all other string values
take `clean_text`; every other value is passed through unchanged. -/
def normalizeValue (nfkcRaises : Str → Bool) (fs : FieldSets) (key : String)
    (v : RawValue) : Option NormValue :=
  match v with
  | .vNone => some .nNone
  | .vStr s =>
      if fs.locFields.contains key then some (.nLoc (normalizeLocation s))
      else if fs.urlFields.contains key then
        match normalizeUrl nfkcRaises s with
        | some out => some (.nStr out)
        | none => none
      else some (.nStr (cleanText s))
  | .vLocDict c sr co r =>
      if fs.locFields.contains key then
        some (.nLoc
          { city := orNone (cleanText c), stateRegion := orNone (cleanText sr),
            country := orNone (cleanText co), raw := r })
      else some (.nPassthrough v)
  | .vOther => some (.nPassthrough v)

/-- The whole normalization loop on a raw extraction mapping; a
`ValueError` in any field aborts the whole normalization. -/
def normalizeMapping (nfkcRaises : Str → Bool) (fs : FieldSets)
    (raw : List (String × RawValue)) : Option (List (String × NormValue)) :=
  raw.mapM (fun kv => (normalizeValue nfkcRaises fs kv.1 kv.2).map (fun nv => (kv.1, nv)))

/-! ## Webhook dispatcher (`integration/webhook.py`) and the job-service
trigger (`JobService._trigger_webhook`)

`json.dumps(..., separators=(",", ":"), sort_keys=True)` is modelled on a
JSON syntax tree; string escaping is not modelled (payload keys and the
status values contain no characters needing escapes). -/

/-- JSON values. -/
inductive Json
| null
| bool (b : Bool)
| num (n : ℤ)
| str (s : String)
| arr (xs : List Json)
| obj (kvs : List (String × Json))
deriving Repr, BEq

/-- Insert a rendered `(key, rendered-value)` pair into a list sorted by
key. -/
def insertRendered (kv : String × String) :
    List (String × String) → List (String × String)
  | [] => [kv]
  | p :: rest => if kv.1 < p.1 then kv :: p :: rest else p :: insertRendered kv rest

/-- Sort rendered pairs by key (what `sort_keys=True` does; keys inside one
object are unique here, so stability is irrelevant). -/
def sortRendered (l : List (String × String)) : List (String × String) :=
  l.foldr insertRendered []

/-- Join rendered object items with compact separators. -/
def joinRendered (l : List (String × String)) : String :=
  String.intercalate "," (l.map (fun kv => "\"" ++ kv.1 ++ "\":" ++ kv.2))

mutual

/-- `json.dumps(v, separators=(",", ":"), sort_keys=True)`. -/
def dumps : Json → String
  | .null => "null"
  | .bool true => "true"
  | .bool false => "false"
  | .num n => toString n
  | .str s => "\"" ++ s ++ "\""
  | .arr xs => "[" ++ dumpsArr xs ++ "]"
  | .obj kvs => "\x7b" ++ joinRendered (sortRendered (dumpsKvs kvs)) ++ "\x7d"

/-- Render array elements joined by commas. -/
def dumpsArr : List Json → String
  | [] => ""
  | [x] => dumps x
  | x :: xs => dumps x ++ "," ++ dumpsArr xs

/-- Render each object value, keeping keys for sorting. -/
def dumpsKvs : List (String × Json) → List (String × String)
  | [] => []
  | kv :: rest => (kv.1, dumps kv.2) :: dumpsKvs rest

end

/-- Look a key up in a JSON object. -/
def Json.lookupKey : Json → String → Option Json
  | .obj kvs, k => (kvs.find? (fun kv => kv.1 = k)).map (·.2)
  | _, _ => none

/-- `WebhookCallback.build_payload`: `results` is included only when given
and `total_tasks ≤ 100`, otherwise the field is `null`. -/
def buildPayload (jobId status : String) (summary : Json) (results : Option Json)
    (totalTasks : ℕ) : Json :=
  Json.obj
    [("job_id", .str jobId), ("status", .str status), ("summary", summary),
     ("results",
       match results with
       | some r => if totalTasks ≤ 100 then r else .null
       | none => .null)]

/-- Python `a or b` on an optional string (empty strings are falsy). -/
def strOr (a : Option String) (b : Option String) : Option String :=
  match a with
  | some s => if s ≠ "" then some s else b
  | none => b

/-- The POST request `WebhookCallback.deliver` issues (URL, body bytes and
headers); `hmacHex` abstracts `compute_signature`'s
`hmac.new(secret, body, sha256).hexdigest()`. -/
structure DeliverRequest where
  url : String
  body : String
  contentType : String
  signatureHeader : String
deriving DecidableEq, Repr

/-- `WebhookCallback.deliver` up to the POST: resolve the target URL
(`url or self._default_url`; skip when falsy), build the payload,
serialize it with sorted keys and compact separators, and sign exactly
those bytes. -/
def deliverBuild (hmacHex : String → String → String) (secret : String)
    (url : Option String) (defaultUrl : Option String) (jobId status : String)
    (results : Option Json) (summary : Json) (totalTasks : ℕ) :
    Option DeliverRequest :=
  match strOr url defaultUrl with
  | none => none
  | some target =>
      if target = "" then none
      else
        let payloadBytes := dumps (buildPayload jobId status summary results totalTasks)
        some
          { url := target, body := payloadBytes, contentType := "application/json",
            signatureHeader := hmacHex secret payloadBytes }

/-- `JobStatus.value` strings. -/
def JobStatus.value : JobStatus → String
  | .queued => "queued"
  | .running => "running"
  | .completed => "completed"
  | .partiallyCompleted => "partially_completed"
  | .failed => "failed"
  | .cancelled => "cancelled"

/-- `_WEBHOOK_FULL_RESULTS_LIMIT` in `job_service.py`. -/
def webhookFullResultsLimit : ℕ := 100

/-- `JobService._trigger_webhook` composed with `_deliver_webhook` and
`WebhookCallback.deliver`: results are passed only for jobs with
`total_tasks ≤ 100` (`jobResults` stands for `get_job_results(job.id)`),
and `_deliver_webhook` calls `deliver` without `total_tasks`, so the
parameter takes its default `0`. -/
def triggerWebhook (hmacHex : String → String → String) (secret : String)
    (defaultUrl : Option String) (job : JobCounters) (jobId : String)
    (callbackUrl : Option String) (jobResults : Json) : Option DeliverRequest :=
  match callbackUrl with
  | none => none
  | some cb =>
      let summary : Json :=
        Json.obj
          [("total", .num (job.totalTasks : ℤ)), ("completed", .num (job.completedTasks : ℤ)),
           ("failed", .num (job.failedTasks : ℤ))]
      let results : Option Json :=
        if job.totalTasks ≤ webhookFullResultsLimit then some jobResults else none
      deliverBuild hmacHex secret (some cb) defaultUrl jobId job.status.value results summary 0

/-! ## Theorems -/

/-- C1 counterexample: a cancelled job with one still-running task; when the
straggler completes, `update_task_result` finds `completed + failed ≥ total`
and overwrites the `cancelled` status with the derived final status, so the
status does not stay `cancelled`. -/
theorem C1_counterexample :
    (updateTaskResult
        (cancelJobStatus
          { status := .running, totalTasks := 1, completedTasks := 0, failedTasks := 0 })
        .completed).status ≠ JobStatus.cancelled := by
  decide

/-- C1 (amended): after `cancel_job` has set a job's status to `cancelled`,
a straggler's `update_task_result` call never decreases the counters and
increments them by at most one, and leaves the status `cancelled` exactly
as long as `completed + failed` stays below `total`; the update that
reaches `total` overwrites `cancelled` with the status derived from the
counters (`compute_final_status`). -/
theorem C1_terminal_cancelled_amended (job : JobCounters) (h : job.status = .cancelled)
    (ts : TaskStatus) :
    (updateTaskResult job ts).totalTasks = job.totalTasks ∧
    job.completedTasks ≤ (updateTaskResult job ts).completedTasks ∧
    job.failedTasks ≤ (updateTaskResult job ts).failedTasks ∧
    (updateTaskResult job ts).completedTasks + (updateTaskResult job ts).failedTasks ≤
      job.completedTasks + job.failedTasks + 1 ∧
    ((updateTaskResult job ts).completedTasks + (updateTaskResult job ts).failedTasks <
        job.totalTasks →
      (updateTaskResult job ts).status = JobStatus.cancelled) ∧
    (job.totalTasks ≤
        (updateTaskResult job ts).completedTasks + (updateTaskResult job ts).failedTasks →
      (updateTaskResult job ts).status = computeFinalStatus (updateTaskResult job ts)) := by
  have hq : ¬ job.status = JobStatus.queued := by rw [h]; intro hc; cases hc
  cases ts <;>
    simp only [updateTaskResult, if_neg hq] <;>
    split_ifs with hdone <;>
    simp_all [computeFinalStatus, h] <;>
    omega

/-- C1 witness: concrete cancelled job with `total = 3`, one failed task
counted so far; a completing straggler leaves the status `cancelled`. -/
theorem C1_terminal_cancelled_witness :
    (updateTaskResult
        { status := .cancelled, totalTasks := 3, completedTasks := 0, failedTasks := 1 }
        .completed).status = JobStatus.cancelled := by
  have h :=
    C1_terminal_cancelled_amended
      { status := .cancelled, totalTasks := 3, completedTasks := 0, failedTasks := 1 }
      rfl .completed
  exact h.2.2.2.2.1 (by decide)

/-- C2 counterexample: the claim that any real entry compares less-than a
sentinel is false — `_PriorityEntry.__lt__` reads `other.priority`, which a
`_Sentinel` does not define, so the comparison raises `AttributeError`
(modelled as `none`) instead of returning `True`. -/
theorem C2_counterexample :
    entryLt { priority := 3, createdTs := 0 } QueueItem.sentinel ≠ some true := by
  decide

/-- C2 (amended): the sentinel's `__lt__` returns `False` against every
operand (so a sentinel never sorts before a real entry) and its `__gt__`
returns `True`; but a real entry's `__lt__` against a sentinel raises
`AttributeError` (the sentinel lacks the `priority` attribute) rather than
returning `True`. -/
theorem C2_sentinel_ordering_amended (e : PriorityEntry) (q : QueueItem) :
    sentinelLt q = false ∧ sentinelGt q = true ∧ entryLt e QueueItem.sentinel = none :=
  ⟨rfl, rfl, rfl⟩

/-- C4 helper: `reduce_rate` never touches `original_refill_rate`. -/
theorem reduceRates_originalRefillRate (f d : ℚ) :
    ∀ (ts : List ℚ) (b : TokenBucket),
      (reduceRates b f d ts).originalRefillRate = b.originalRefillRate := by
  intro ts
  induction ts with
  | nil => intro b; rfl
  | cons t ts ih =>
      intro b
      show (reduceRates (reduceRate b f d t) f d ts).originalRefillRate = _
      rw [ih]
      rfl

/-- C4 helper: any non-empty run of `reduce_rate` calls with factor `f`
leaves `refill_rate = original_refill_rate × f`. -/
theorem reduceRates_refillRate (f d : ℚ) :
    ∀ (ts : List ℚ) (b : TokenBucket), ts ≠ [] →
      (reduceRates b f d ts).refillRate = b.originalRefillRate * f := by
  intro ts
  induction ts with
  | nil => intro b hb; cases hb rfl
  | cons t ts ih =>
      intro b _
      show (reduceRates (reduceRate b f d t) f d ts).refillRate = _
      cases ts with
      | nil => rfl
      | cons t2 ts2 =>
          rw [ih (reduceRate b f d t) (by simp)]
          rfl

/-- C4: `reduce_rate` is idempotent in the refill rate — after any
non-empty sequence of `reduce_rate(factor, duration)` calls the refill
rate equals `original_refill_rate × factor` and `original_refill_rate`
itself is unchanged (reductions never compound); and once the backoff
expiry has passed, the next refill that observes elapsed time restores
`refill_rate` to exactly the saved original and clears the expiry. -/
theorem C4_reduce_rate_idempotent (b : TokenBucket) (f d : ℚ) (ts : List ℚ)
    (hts : ts ≠ []) (b2 : TokenBucket) (now r : ℚ) (hr : b2.reducedUntil = some r)
    (hexp : r ≤ now) (hel : b2.lastRefill < now) :
    ((reduceRates b f d ts).refillRate = b.originalRefillRate * f ∧
      (reduceRates b f d ts).originalRefillRate = b.originalRefillRate) ∧
    ((refillBucket b2 now).refillRate = b2.originalRefillRate ∧
      (refillBucket b2 now).reducedUntil = none) := by
  refine ⟨⟨reduceRates_refillRate f d ts b hts, reduceRates_originalRefillRate f d ts b⟩, ?_⟩
  have h1 : ¬ (now - b2.lastRefill ≤ 0) := by linarith
  have h2 : now ≥ r := hexp
  simp [refillBucket, h1, hr, h2]

/-- C4 witness: one concrete bucket reduced twice, and one concrete
expired-backoff bucket restored by the next refill. -/
theorem C4_reduce_rate_witness :
    (reduceRates
        { tokens := 2, maxTokens := 2, refillRate := 1/5, lastRefill := 0,
          reducedUntil := none, originalRefillRate := 1/5 } (1/2) 300 [0, 10]).refillRate
      = (1/5 : ℚ) * (1/2) ∧
    (refillBucket
        { tokens := 0, maxTokens := 2, refillRate := 1/10, lastRefill := 5,
          reducedUntil := some 9, originalRefillRate := 1/5 } 10).refillRate = (1/5 : ℚ) := by
  have h :=
    C4_reduce_rate_idempotent
      { tokens := 2, maxTokens := 2, refillRate := 1/5, lastRefill := 0,
        reducedUntil := none, originalRefillRate := 1/5 } (1/2) 300 [0, 10] (by simp)
      { tokens := 0, maxTokens := 2, refillRate := 1/10, lastRefill := 5,
        reducedUntil := some 9, originalRefillRate := 1/5 } 10 9 rfl (by norm_num)
      (by norm_num)
  exact ⟨h.1.1, h.2.1⟩

/-- C8 helper: running the retry loop from attempt `a` when the first `k`
attempts from `a` are retryable and attempt `a + k` returns 404: the loop
raises `CredentialNotFoundError` at once, having slept `2^j` seconds after
each earlier attempt. -/
theorem fetchGo_notFound {α : Type} (outcomes : ℕ → AttemptOutcome α) (maxRetries : ℕ) :
    ∀ (k a fuel : ℕ) (body : α), a + fuel = maxRetries → k < fuel →
      (∀ j, j < k → retryableOutcome (outcomes (a + j)) = true) →
      outcomes (a + k) = .response 404 body →
      fetchGo outcomes maxRetries a fuel =
        (.credentialNotFound, (List.range k).map (fun j => 2 ^ (a + j))) := by
  intro k
  induction k with
  | zero =>
      intro a fuel body hmax hk _ h404
      obtain ⟨f, rfl⟩ : ∃ f, fuel = f + 1 := ⟨fuel - 1, by omega⟩
      rw [Nat.add_zero] at h404
      simp [fetchGo, h404]
  | succ k ih =>
      intro a fuel body hmax hk hpre h404
      obtain ⟨f, rfl⟩ : ∃ f, fuel = f + 1 := ⟨fuel - 1, by omega⟩
      have hf : k < f := by omega
      have hlt : a < maxRetries - 1 := by omega
      have hr :
          fetchGo outcomes maxRetries (a + 1) f =
            (.credentialNotFound, (List.range k).map (fun j => 2 ^ (a + 1 + j))) := by
        refine ih (a + 1) f body (by omega) hf ?_ ?_
        · intro j hj
          have := hpre (j + 1) (by omega)
          have harith : a + (j + 1) = a + 1 + j := by omega
          rwa [harith] at this
        · have harith : a + (k + 1) = a + 1 + k := by omega
          rwa [harith] at h404
      have h0 := hpre 0 (by omega)
      rw [Nat.add_zero] at h0
      have hshift : ∀ j, a + 1 + j = a + (j + 1) := by omega
      cases houtcome : outcomes a with
      | transportError =>
          simp only [fetchGo, houtcome, if_pos hlt, hr]
          simp [List.range_succ_eq_map, List.map_map, Function.comp, hshift]
      | response code body2 =>
          rw [houtcome] at h0
          simp only [retryableOutcome, Bool.and_eq_true, decide_eq_true_eq] at h0
          simp only [fetchGo, houtcome, if_neg h0.2, if_pos h0.1, if_pos hlt, hr]
          simp [List.range_succ_eq_map, List.map_map, Function.comp, hshift]

/-- C8 helper: when every attempt from `a` on is retryable, the loop
exhausts its budget, sleeps after every attempt but the last, and raises
the generic `RuntimeError`. -/
theorem fetchGo_exhausted {α : Type} (outcomes : ℕ → AttemptOutcome α) (maxRetries : ℕ) :
    ∀ (fuel a : ℕ), a + fuel = maxRetries →
      (∀ j, a ≤ j → j < maxRetries → retryableOutcome (outcomes j) = true) →
      fetchGo outcomes maxRetries a fuel =
        (.runtimeError, (List.range (fuel - 1)).map (fun j => 2 ^ (a + j))) := by
  intro fuel
  induction fuel with
  | zero => intro a _ _; simp [fetchGo]
  | succ f ih =>
      intro a hmax hall
      have h0 := hall a (le_refl a) (by omega)
      have step :
          ∀ r : FetchResult α × List ℕ,
            r = fetchGo outcomes maxRetries (a + 1) f →
            (if a < maxRetries - 1 then (r.1, 2 ^ a :: r.2) else (r.1, r.2)) =
              (.runtimeError, (List.range (f + 1 - 1)).map (fun j => 2 ^ (a + j))) := by
        intro r hrdef
        have hr := ih (a + 1) (by omega) (fun j h1 h2 => hall j (by omega) h2)
        rw [hrdef, hr]
        by_cases hf : f = 0
        · subst hf
          simp [show ¬ a < maxRetries - 1 by omega]
        · obtain ⟨f2, rfl⟩ : ∃ f2, f = f2 + 1 := ⟨f - 1, by omega⟩
          have hshift : ∀ j, a + 1 + j = a + (j + 1) := by omega
          simp only [if_pos (show a < maxRetries - 1 by omega)]
          simp [List.range_succ_eq_map, List.map_map, Function.comp, hshift]
      cases houtcome : outcomes a with
      | transportError =>
          simp only [fetchGo, houtcome]
          exact step _ rfl
      | response code body2 =>
          rw [houtcome] at h0
          simp only [retryableOutcome, Bool.and_eq_true, decide_eq_true_eq] at h0
          simp only [fetchGo, houtcome, if_neg h0.2, if_pos h0.1]
          exact step _ rfl

/-- C8: in `_fetch_with_retries`, a 404 raises `credential-not-found`
immediately with no further attempt and no extra sleep; transport errors
and non-404 HTTP errors are retried up to `max_retries` attempts with
`2^attempt` seconds of backoff between attempts; and when every attempt
fails retryably the loop exhausts and raises the generic `RuntimeError`
rather than a taxonomy error. -/
theorem C8_credential_retry {α : Type} (outcomes : ℕ → AttemptOutcome α) (maxRetries : ℕ) :
    (∀ (k : ℕ) (body : α), k < maxRetries →
       (∀ j, j < k → retryableOutcome (outcomes j) = true) →
       outcomes k = .response 404 body →
       fetchWithRetries outcomes maxRetries =
         (.credentialNotFound, (List.range k).map (2 ^ ·))) ∧
    ((∀ j, j < maxRetries → retryableOutcome (outcomes j) = true) →
       fetchWithRetries outcomes maxRetries =
         (.runtimeError, (List.range (maxRetries - 1)).map (2 ^ ·))) := by
  constructor
  · intro k body hk hpre h404
    have h := fetchGo_notFound outcomes maxRetries k 0 maxRetries body (by omega) hk
      (by simpa using hpre) (by simpa using h404)
    simpa [fetchWithRetries] using h
  · intro hall
    have h := fetchGo_exhausted outcomes maxRetries maxRetries 0 (by omega)
      (fun j _ hj => hall j hj)
    simpa [fetchWithRetries] using h

/-- C8 witness: with three attempts, a 404 on the second attempt stops
after one backoff sleep; three transport errors exhaust with sleeps of 1
and 2 seconds and a `RuntimeError`. -/
theorem C8_credential_retry_witness :
    fetchWithRetries
        (fun i => if i = 1 then AttemptOutcome.response 404 (0 : ℕ) else .transportError) 3 =
      (.credentialNotFound, [1]) ∧
    fetchWithRetries (fun _ : ℕ => (AttemptOutcome.transportError : AttemptOutcome ℕ)) 3 =
      (.runtimeError, [1, 2]) := by
  constructor
  · have h :=
      (C8_credential_retry
          (fun i => if i = 1 then AttemptOutcome.response 404 (0 : ℕ) else .transportError)
          3).1 1 0 (by omega)
        (fun j hj => by
          have : j = 0 := by omega
          subst this
          rfl)
        rfl
    simpa using h
  · have h :=
      (C8_credential_retry (fun _ : ℕ => (AttemptOutcome.transportError : AttemptOutcome ℕ))
          3).2 (fun j _ => rfl)
    simpa using h

/-- C3 helper: re-trimming an already trimmed ring after appending is the
same as trimming the whole concatenation. -/
theorem dropToWindow_append (W : ℕ) (l m : List (ℚ × Bool)) :
    dropToWindow W (dropToWindow W l ++ m) = dropToWindow W (l ++ m) := by
  unfold dropToWindow
  rw [List.drop_append_eq_append_drop, List.drop_append_eq_append_drop, List.drop_drop]
  have hx : (l.drop (l.length - W)).length = l.length - (l.length - W) :=
    List.length_drop _ _
  congr 1
  · congr 1
    simp only [List.length_append, hx]
    omega
  · congr 1
    simp only [List.length_append, hx]
    omega

/-- C3 helper: an all-false ring has failure count equal to its length. -/
theorem failureCount_all_false (r : List (ℚ × Bool)) (h : ∀ e ∈ r, e.2 = false) :
    failureCount r = r.length := by
  unfold failureCount
  rw [List.filter_eq_self.mpr]
  intro e he
  rw [h e he]
  rfl

/-- C3 helper: one `record_failure` on a closed state below window and
threshold appends to the ring and stays closed. -/
theorem recordFailure_closed_step (cfg : CircuitBreakerConfig) (s : CircuitBreakerState)
    (t : ℚ) (h : s.state = .closed) (hlen : s.recentCalls.length < cfg.windowSize)
    (hcnt : failureCount (s.recentCalls ++ [(t, false)]) < cfg.failureThreshold) :
    recordFailure cfg s t = { s with recentCalls := s.recentCalls ++ [(t, false)] } := by
  have hdrop : dropToWindow cfg.windowSize (s.recentCalls ++ [(t, false)]) =
      s.recentCalls ++ [(t, false)] := by
    unfold dropToWindow
    rw [Nat.sub_eq_zero_of_le (by rw [List.length_append]; simp; omega), List.drop_zero]
  unfold recordFailure appendCall
  simp only [h, hdrop, if_true]
  rw [if_neg (by omega)]

/-- C3 helper: one `record_failure` on a closed state that brings the
failure count to the threshold opens the circuit. -/
theorem recordFailure_closed_opens (cfg : CircuitBreakerConfig) (s : CircuitBreakerState)
    (t : ℚ) (h : s.state = .closed) (hlen : s.recentCalls.length < cfg.windowSize)
    (hcnt : cfg.failureThreshold ≤ failureCount (s.recentCalls ++ [(t, false)])) :
    (recordFailure cfg s t).state = .open_ := by
  have hdrop : dropToWindow cfg.windowSize (s.recentCalls ++ [(t, false)]) =
      s.recentCalls ++ [(t, false)] := by
    unfold dropToWindow
    rw [Nat.sub_eq_zero_of_le (by rw [List.length_append]; simp; omega), List.drop_zero]
  unfold recordFailure appendCall
  simp only [h, hdrop, if_true]
  rw [if_pos (by omega)]

/-- C3 helper: a streak of failures that stays strictly below the
threshold (and within the window) keeps the circuit closed with an
all-false ring growing one entry per call. -/
theorem recordFailures_closed_small (cfg : CircuitBreakerConfig) :
    ∀ (ts : List ℚ) (s : CircuitBreakerState), s.state = .closed →
      (∀ e ∈ s.recentCalls, e.2 = false) →
      s.recentCalls.length + ts.length ≤ cfg.windowSize →
      s.recentCalls.length + ts.length < cfg.failureThreshold →
      (recordFailures cfg s ts).state = .closed ∧
      (recordFailures cfg s ts).recentCalls.length = s.recentCalls.length + ts.length ∧
      (∀ e ∈ (recordFailures cfg s ts).recentCalls, e.2 = false) := by
  intro ts
  induction ts with
  | nil =>
      intro s h1 h2 _ _
      exact ⟨h1, by simp [recordFailures], by simpa [recordFailures] using h2⟩
  | cons t ts ih =>
      intro s h1 h2 hW hF
      simp only [List.length_cons] at hW hF
      have hcnt : failureCount (s.recentCalls ++ [(t, false)]) < cfg.failureThreshold := by
        rw [failureCount_all_false _ (by
          intro e he
          rcases List.mem_append.mp he with h | h
          · exact h2 e h
          · simp at h; rw [h])]
        rw [List.length_append]
        simp
        omega
      have hstep := recordFailure_closed_step cfg s t h1 (by omega) hcnt
      have hrec : recordFailures cfg s (t :: ts) =
          recordFailures cfg (recordFailure cfg s t) ts := rfl
      rw [hrec, hstep]
      have := ih { s with recentCalls := s.recentCalls ++ [(t, false)] }
        h1
        (by
          intro e he
          rcases List.mem_append.mp he with h | h
          · exact h2 e h
          · simp at h; rw [h])
        (by rw [List.length_append]; simp; omega)
        (by rw [List.length_append]; simp; omega)
      refine ⟨this.1, ?_, this.2.2⟩
      rw [this.2.1, List.length_append]
      simp
      omega

/-- C3 helper: `record_success` on a closed state appends and stays
closed. -/
theorem recordSuccesses_closed (cfg : CircuitBreakerConfig) :
    ∀ (ts : List ℚ) (s : CircuitBreakerState), s.state = .closed →
      s.recentCalls.length ≤ cfg.windowSize →
      (recordSuccesses cfg s ts).state = .closed ∧
      (recordSuccesses cfg s ts).recentCalls =
        dropToWindow cfg.windowSize (s.recentCalls ++ ts.map (fun t => (t, true))) := by
  intro ts
  induction ts with
  | nil =>
      intro s h1 hring
      refine ⟨h1, ?_⟩
      show s.recentCalls = dropToWindow cfg.windowSize (s.recentCalls ++ [])
      rw [List.append_nil]
      unfold dropToWindow
      rw [Nat.sub_eq_zero_of_le hring, List.drop_zero]
  | cons t ts ih =>
      intro s h1 hring
      have hstep : recordSuccess cfg s t = appendCall cfg s t true := by
        unfold recordSuccess
        simp only [h1]
      have hrec : recordSuccesses cfg s (t :: ts) =
          recordSuccesses cfg (recordSuccess cfg s t) ts := rfl
      rw [hrec, hstep]
      have := ih (appendCall cfg s t true) h1
        (by
          show (dropToWindow cfg.windowSize (s.recentCalls ++ [(t, true)])).length ≤ _
          unfold dropToWindow
          rw [List.length_drop]
          omega)
      refine ⟨this.1, ?_⟩
      rw [this.2]
      show dropToWindow cfg.windowSize
          (dropToWindow cfg.windowSize (s.recentCalls ++ [(t, true)]) ++ _) = _
      rw [dropToWindow_append, List.append_assoc]
      rfl

/-- C3 counterexample: with `window_size = 1 < failure_threshold = 2`
(a configuration `settings.py` admits — both fields only require `≥ 1`),
two consecutive failures from a fresh closed state never open the circuit:
the ring is trimmed to one entry, so the failure count stays below the
threshold. -/
theorem C3_counterexample :
    (recordFailures { windowSize := 1, failureThreshold := 2, cooldownSeconds := 5 }
        (freshCircuitState 0) [0, 1]).state ≠ CircuitState.open_ := by
  decide

/-- C3 (amended, adding `1 ≤ failure_threshold ≤ window_size`): F
consecutive failures from a fresh closed state open the circuit; F−1
failures followed by W successes leave it closed with an all-success ring;
an open circuit's `can_call` returns true and moves to half-open exactly
when the cooldown has elapsed since the last state change, and otherwise
leaves the state untouched; `record_success` in half-open closes the
circuit and empties the ring; `record_failure` in half-open re-opens it,
empties the ring and restamps the state-change time so the cooldown
restarts. -/
theorem C3_circuit_breaker_amended (cfg : CircuitBreakerConfig)
    (hF1 : 1 ≤ cfg.failureThreshold) (hFW : cfg.failureThreshold ≤ cfg.windowSize)
    (t0 : ℚ) (fts : List ℚ) (hf : fts.length = cfg.failureThreshold)
    (gts : List ℚ) (hg : gts.length = cfg.failureThreshold - 1)
    (sts : List ℚ) (hs : sts.length = cfg.windowSize)
    (sOpen : CircuitBreakerState) (hOpen : sOpen.state = .open_) (now : ℚ)
    (sHalf : CircuitBreakerState) (hHalf : sHalf.state = .halfOpen) (now2 : ℚ) :
    (recordFailures cfg (freshCircuitState t0) fts).state = .open_ ∧
    ((recordSuccesses cfg (recordFailures cfg (freshCircuitState t0) gts) sts).state =
        .closed ∧
      ∀ e ∈ (recordSuccesses cfg (recordFailures cfg (freshCircuitState t0) gts)
          sts).recentCalls, e.2 = true) ∧
    ((canCall cfg sOpen now).1 = true ↔ cfg.cooldownSeconds ≤ now - sOpen.lastStateChange) ∧
    (cfg.cooldownSeconds ≤ now - sOpen.lastStateChange →
      (canCall cfg sOpen now).2 = { sOpen with state := .halfOpen, lastStateChange := now }) ∧
    (¬ cfg.cooldownSeconds ≤ now - sOpen.lastStateChange → (canCall cfg sOpen now).2 = sOpen) ∧
    (recordSuccess cfg sHalf now2 =
      { sHalf with state := .closed, lastStateChange := now2, recentCalls := [] }) ∧
    (recordFailure cfg sHalf now2 =
      { sHalf with state := .open_, lastStateChange := now2, recentCalls := [] }) := by
  refine ⟨?_, ⟨?_, ?_⟩, ?_, ?_, ?_, ?_, ?_⟩
  · -- F consecutive failures open
    rcases List.eq_nil_or_concat fts with hnil | ⟨ts, t, hconcat⟩
    · rw [hnil] at hf; simp at hf; omega
    · rw [List.concat_eq_append] at hconcat
      subst hconcat
      rw [List.length_append] at hf
      simp at hf
      have hsmall := recordFailures_closed_small cfg ts (freshCircuitState t0) rfl
        (by intro e he; simp [freshCircuitState] at he)
        (by simp [freshCircuitState]; omega)
        (by simp [freshCircuitState]; omega)
      have hrec : recordFailures cfg (freshCircuitState t0) (ts ++ [t]) =
          recordFailure cfg (recordFailures cfg (freshCircuitState t0) ts) t := by
        unfold recordFailures
        simp
      rw [hrec]
      refine recordFailure_closed_opens cfg _ t hsmall.1 ?_ ?_
      · rw [hsmall.2.1]
        simp [freshCircuitState]
        omega
      · rw [failureCount_all_false _ (by
          intro e he
          rcases List.mem_append.mp he with h | h
          · exact hsmall.2.2 e h
          · simp at h; rw [h])]
        rw [List.length_append, hsmall.2.1]
        simp [freshCircuitState]
        omega
  · -- F-1 failures then W successes: still closed
    have hsmall := recordFailures_closed_small cfg gts (freshCircuitState t0) rfl
      (by intro e he; simp [freshCircuitState] at he)
      (by simp [freshCircuitState]; omega)
      (by simp [freshCircuitState]; omega)
    exact (recordSuccesses_closed cfg sts _ hsmall.1
      (by rw [hsmall.2.1]; simp [freshCircuitState]; omega)).1
  · -- ... and the ring holds only successes
    have hsmall := recordFailures_closed_small cfg gts (freshCircuitState t0) rfl
      (by intro e he; simp [freshCircuitState] at he)
      (by simp [freshCircuitState]; omega)
      (by simp [freshCircuitState]; omega)
    have hsucc := recordSuccesses_closed cfg sts _ hsmall.1
      (by rw [hsmall.2.1]; simp [freshCircuitState]; omega)
    intro e he
    rw [hsucc.2] at he
    have hidx : dropToWindow cfg.windowSize
        ((recordFailures cfg (freshCircuitState t0) gts).recentCalls ++
          sts.map (fun t => (t, true))) =
        sts.map (fun t => (t, true)) := by
      unfold dropToWindow
      have hlen2 : ((recordFailures cfg (freshCircuitState t0) gts).recentCalls ++
          sts.map (fun t => (t, true))).length -
          cfg.windowSize =
          (recordFailures cfg (freshCircuitState t0) gts).recentCalls.length := by
        rw [List.length_append, List.length_map, hsmall.2.1, hs]
        simp [freshCircuitState]
      rw [hlen2, List.drop_left]
    rw [hidx] at he
    rcases List.mem_map.mp he with ⟨t, _, rfl⟩
    rfl
  · -- can_call on open: true iff cooldown elapsed
    unfold canCall
    simp only [hOpen]
    by_cases hcond : cfg.cooldownSeconds ≤ now - sOpen.lastStateChange
    · simp [ge_iff_le, hcond]
    · simp [ge_iff_le, hcond]
  · -- cooldown elapsed: transition to half-open
    intro hcond
    unfold canCall
    simp only [hOpen]
    rw [if_pos (by exact hcond)]
  · -- cooldown not elapsed: state untouched
    intro hcond
    unfold canCall
    simp only [hOpen]
    rw [if_neg (by exact hcond)]
  · -- half-open success closes and clears
    unfold recordSuccess
    simp only [hHalf]
  · -- half-open failure re-opens, clears, restamps
    unfold recordFailure
    simp only [hHalf]

/-- C3 witness: window 2, threshold 2, cooldown 10; two failures at 0 and 1
open the circuit; one failure then two successes stay closed; an open state
probed at 10 turns half-open; half-open success closes, half-open failure
re-opens. -/
theorem C3_circuit_breaker_witness :
    (recordFailures { windowSize := 2, failureThreshold := 2, cooldownSeconds := 10 }
        (freshCircuitState 0) [0, 1]).state = CircuitState.open_ ∧
    (canCall { windowSize := 2, failureThreshold := 2, cooldownSeconds := 10 }
        { state := .open_, recentCalls := [], lastStateChange := 0 } 10).1 = true := by
  have h :=
    C3_circuit_breaker_amended
      { windowSize := 2, failureThreshold := 2, cooldownSeconds := 10 }
      (by decide) (by decide) 0 [0, 1] (by decide) [0] (by decide) [1, 2] (by decide)
      { state := .open_, recentCalls := [], lastStateChange := 0 } rfl 10
      { state := .halfOpen, recentCalls := [], lastStateChange := 3 } rfl 4
  exact ⟨h.1, h.2.2.1.mpr (by norm_num)⟩

/-- C7 helper: `dict[d] = t` then `dict.get(d)` yields `t` (find over the
in-place update). -/
theorem find?_map_update (m : List (String × ℚ)) (d : String) (t : ℚ)
    (hin : (m.find? (fun p => p.1 = d)).isSome = true) :
    (m.map (fun p => if p.1 = d then (p.1, t) else p)).find? (fun p => p.1 = d) =
      some (d, t) := by
  induction m with
  | nil => simp at hin
  | cons kv m' ih =>
      by_cases hk : kv.1 = d
      · simp [List.find?, hk]
      · have hin' : (m'.find? (fun p => p.1 = d)).isSome = true := by
          simpa [List.find?_cons, hk] using hin
        simpa [List.find?, hk] using ih hin'

/-- C7 helper: `find?` skips a prefix in which it fails. -/
theorem find?_append_none (m : List (String × ℚ)) (p : String × ℚ → Bool)
    (h : m.find? p = none) (l2 : List (String × ℚ)) :
    (m ++ l2).find? p = l2.find? p := by
  induction m with
  | nil => rfl
  | cons kv m' ih =>
      by_cases hkv : p kv = true
      · rw [List.find?_cons_of_pos _ hkv] at h
        cases h
      · rw [List.find?_cons_of_neg _ hkv] at h
        rw [List.cons_append, List.find?_cons_of_neg _ hkv]
        exact ih h

/-- C7 helper: after `last_used_domains[domain] = now`, looking the domain
up yields `now`. -/
theorem lookupDomain_setDomain (m : List (String × ℚ)) (d : String) (t : ℚ) :
    lookupDomain (setDomain m d t) d = some t := by
  unfold lookupDomain setDomain
  by_cases hin : (m.find? (fun p => p.1 = d)).isSome = true
  · rw [if_pos hin, find?_map_update m d t hin]
    rfl
  · rw [if_neg hin]
    have hnone : m.find? (fun p => p.1 = d) = none := by
      rcases hfind : m.find? (fun p => p.1 = d) with _ | v
      · exact hfind
      · rw [hfind] at hin; simp at hin
    rw [find?_append_none m _ hnone]
    simp [List.find?]

/-- C7 helper: a successful scan returns a position inside the pool. -/
theorem selectScan_some_lt (proxies : List ProxyEndpoint) (cooldown : ℚ) (domain : String)
    (now : ℚ) (hne : proxies ≠ []) :
    ∀ (fuel idx pos idx1 : ℕ),
      selectScan proxies cooldown domain now idx fuel = (some pos, idx1) →
      pos < proxies.length := by
  intro fuel
  induction fuel with
  | zero => intro idx pos idx1 h; simp [selectScan] at h
  | succ f ih =>
      intro idx pos idx1 h
      have hlen : 0 < proxies.length := List.length_pos.mpr hne
      unfold selectScan at h
      rcases hget : proxies.get? (idx % proxies.length) with _ | p
      · rw [hget] at h; simp at h
      · rw [hget] at h
        by_cases helig : proxyEligible cooldown now domain p = true
        · simp [helig] at h
          rcases h with ⟨h1, _⟩
          rw [← h1]
          exact Nat.mod_lt _ hlen
        · simp [helig] at h
          exact ih _ _ _ h

/-- C7 helper: on a fruitless scan the cursor has advanced exactly `fuel`
steps modulo the pool size. -/
theorem selectScan_none_cursor (proxies : List ProxyEndpoint) (cooldown : ℚ)
    (domain : String) (now : ℚ) (hne : proxies ≠ []) :
    ∀ (fuel idx idx1 : ℕ), idx < proxies.length →
      selectScan proxies cooldown domain now idx fuel = (none, idx1) →
      idx1 = (idx + fuel) % proxies.length := by
  intro fuel
  induction fuel with
  | zero =>
      intro idx idx1 hidx h
      simp [selectScan] at h
      rw [← h, Nat.add_zero, Nat.mod_eq_of_lt hidx]
  | succ f ih =>
      intro idx idx1 hidx h
      have hlen : 0 < proxies.length := List.length_pos.mpr hne
      unfold selectScan at h
      rcases hget : proxies.get? (idx % proxies.length) with _ | p
      · exact absurd (List.get?_eq_none.mp hget) (by push_neg; exact Nat.mod_lt _ hlen)
      · rw [hget] at h
        by_cases helig : proxyEligible cooldown now domain p = true
        · simp [helig] at h
        · simp [helig] at h
          have := ih ((idx + 1) % proxies.length) idx1 (Nat.mod_lt _ hlen) h
          rw [this, Nat.mod_add_mod]
          congr 1
          omega

/-- C7 helper: the scan returns the first eligible position, advancing the
cursor one step past it. -/
theorem selectScan_found (proxies : List ProxyEndpoint) (cooldown : ℚ) (domain : String)
    (now : ℚ) (hne : proxies ≠ []) :
    ∀ (k fuel idx : ℕ), idx < proxies.length → k < fuel →
      (∀ j, j < k → eligAt proxies cooldown domain now ((idx + j) % proxies.length) = false) →
      eligAt proxies cooldown domain now ((idx + k) % proxies.length) = true →
      selectScan proxies cooldown domain now idx fuel =
        (some ((idx + k) % proxies.length),
         ((idx + k) % proxies.length + 1) % proxies.length) := by
  intro k
  induction k with
  | zero =>
      intro fuel idx hidx hk _ helig
      obtain ⟨f, rfl⟩ : ∃ f, fuel = f + 1 := ⟨fuel - 1, by omega⟩
      have hmod : (idx + 0) % proxies.length = idx := by
        rw [Nat.add_zero, Nat.mod_eq_of_lt hidx]
      rw [hmod] at helig ⊢
      unfold eligAt at helig
      unfold selectScan
      rw [Nat.mod_eq_of_lt hidx]
      rcases hget : proxies.get? idx with _ | p
      · rw [hget] at helig
        simp at helig
      · rw [hget] at helig
        have helig2 : proxyEligible cooldown now domain p = true := helig
        simp [helig2]
  | succ k ih =>
      intro fuel idx hidx hk hpre helig
      obtain ⟨f, rfl⟩ : ∃ f, fuel = f + 1 := ⟨fuel - 1, by omega⟩
      have hlen : 0 < proxies.length := List.length_pos.mpr hne
      have h0 := hpre 0 (by omega)
      have hmod0 : (idx + 0) % proxies.length = idx := by
        rw [Nat.add_zero, Nat.mod_eq_of_lt hidx]
      rw [hmod0] at h0
      have hshift : ∀ j, ((idx + 1) % proxies.length + j) % proxies.length =
          (idx + (j + 1)) % proxies.length := by
        intro j
        rw [Nat.mod_add_mod]
        congr 1
        omega
      have hrec := ih f ((idx + 1) % proxies.length) (Nat.mod_lt _ hlen) (by omega)
        (by intro j hj; rw [hshift j]; exact hpre (j + 1) (by omega))
        (by rw [hshift k]; exact helig)
      rw [hshift k] at hrec
      unfold selectScan
      rw [Nat.mod_eq_of_lt hidx]
      unfold eligAt at h0
      rcases hget : proxies.get? idx with _ | p
      · exact absurd (List.get?_eq_none.mp hget) (by push_neg; exact hidx)
      · rw [hget] at h0
        have h02 : proxyEligible cooldown now domain p = false := h0
        simp only [h02, Bool.false_eq_true, if_false]
        exact hrec

/-- C7: `select` on a non-empty pool scans at most `N = len(pool)`
positions starting at the cursor, skipping unhealthy or cooled-down
entries while still advancing the cursor; the first eligible proxy is
returned with `last_used_domains[target_domain]` stamped to the current
time and the cursor one step past it; a fruitless full rotation fails with
`no-healthy-proxies` (modelled as `none`). -/
theorem C7_proxy_select (st : ProxyManagerState) (domain : String) (now : ℚ)
    (hne : st.proxies ≠ []) (hidx : st.index < st.proxies.length) :
    (∀ k, k < st.proxies.length →
      (∀ j, j < k →
        eligAt st.proxies st.domainCooldownSeconds domain now
          ((st.index + j) % st.proxies.length) = false) →
      eligAt st.proxies st.domainCooldownSeconds domain now
          ((st.index + k) % st.proxies.length) = true →
      ∃ p, st.proxies.get? ((st.index + k) % st.proxies.length) = some p ∧
        proxySelect st domain now =
          (some { p with lastUsedDomains := setDomain p.lastUsedDomains domain now },
           { st with
               proxies := st.proxies.set ((st.index + k) % st.proxies.length)
                 { p with lastUsedDomains := setDomain p.lastUsedDomains domain now },
               index := ((st.index + k) % st.proxies.length + 1) % st.proxies.length }) ∧
        lookupDomain (setDomain p.lastUsedDomains domain now) domain = some now) ∧
    ((∀ j, j < st.proxies.length →
        eligAt st.proxies st.domainCooldownSeconds domain now
          ((st.index + j) % st.proxies.length) = false) →
      proxySelect st domain now = (none, st)) := by
  have hempty : st.proxies.isEmpty = false := by
    rcases hp : st.proxies with _ | ⟨a, l⟩
    · exact absurd hp hne
    · rfl
  constructor
  · intro k hk hpre helig
    have hscan := selectScan_found st.proxies st.domainCooldownSeconds domain now hne
      k st.proxies.length st.index hidx hk hpre helig
    unfold eligAt at helig
    rcases hget : st.proxies.get? ((st.index + k) % st.proxies.length) with _ | p
    · rw [hget] at helig; simp at helig
    · refine ⟨p, rfl, ?_, lookupDomain_setDomain _ _ _⟩
      unfold proxySelect
      rw [hempty]
      simp only [Bool.false_eq_true, if_false, hscan, hget]
  · intro hall
    have hnone : ∀ idx1,
        selectScan st.proxies st.domainCooldownSeconds domain now st.index
          st.proxies.length = (none, idx1) → idx1 = st.index := by
      intro idx1 hsc
      have := selectScan_none_cursor st.proxies st.domainCooldownSeconds domain now hne
        st.proxies.length st.index idx1 hidx hsc
      rw [this, Nat.add_mod_right, Nat.mod_eq_of_lt hidx]
    rcases hsc : selectScan st.proxies st.domainCooldownSeconds domain now st.index
        st.proxies.length with ⟨r, idx1⟩
    rcases r with _ | pos
    · have hidx1 := hnone idx1 hsc
      unfold proxySelect
      rw [hempty]
      simp only [Bool.false_eq_true, if_false, hsc, hidx1]
    · -- a found position contradicts universal ineligibility
      exfalso
      have hposlt := selectScan_some_lt st.proxies st.domainCooldownSeconds domain now hne
        st.proxies.length st.index pos idx1 hsc
      -- reconstruct which offset was found: re-run the characterization
      -- by strong induction is avoided: show a found position implies some
      -- eligible offset among the first `fuel` scanned.
      have hsome : ∃ j, j < st.proxies.length ∧
          eligAt st.proxies st.domainCooldownSeconds domain now
            ((st.index + j) % st.proxies.length) = true := by
        clear hposlt hnone
        have hgen : ∀ (fuel idx : ℕ), idx < st.proxies.length →
            ∀ pos idx1, selectScan st.proxies st.domainCooldownSeconds domain now idx fuel =
              (some pos, idx1) →
            ∃ j, j < fuel ∧
              eligAt st.proxies st.domainCooldownSeconds domain now
                ((idx + j) % st.proxies.length) = true := by
          intro fuel
          induction fuel with
          | zero => intro idx _ pos idx1 h; simp [selectScan] at h
          | succ f ih =>
              intro idx hidx2 pos idx1 h
              have hlen : 0 < st.proxies.length := List.length_pos.mpr hne
              unfold selectScan at h
              rcases hget : st.proxies.get? (idx % st.proxies.length) with _ | p
              · rw [hget] at h; simp at h
              · rw [hget] at h
                by_cases helig : proxyEligible st.domainCooldownSeconds now domain p = true
                · refine ⟨0, by omega, ?_⟩
                  unfold eligAt
                  rw [Nat.add_zero, hget]
                  exact helig
                · simp [helig] at h
                  rcases ih ((idx + 1) % st.proxies.length) (Nat.mod_lt _ hlen) pos idx1 h
                    with ⟨j, hj, he⟩
                  refine ⟨j + 1, by omega, ?_⟩
                  have hshift : ((idx + 1) % st.proxies.length + j) % st.proxies.length =
                      (idx + (j + 1)) % st.proxies.length := by
                    rw [Nat.mod_add_mod]
                    congr 1
                    omega
                  rwa [hshift] at he
        rcases hgen st.proxies.length st.index hidx pos idx1 hsc with ⟨j, hj, he⟩
        exact ⟨j, hj, he⟩
      rcases hsome with ⟨j, hj, he⟩
      rw [hall j hj] at he
      cases he

/-- C7 witness: a pool of two healthy proxies with an empty usage history;
`select("a.com")` at time 0 returns the first proxy stamped with
`("a.com", 0)`. -/
theorem C7_proxy_select_witness :
    (proxySelect
        { proxies :=
            [{ url := "p1", isHealthy := true, successCount := 0, failureCount := 0,
               lastUsedDomains := [] },
             { url := "p2", isHealthy := true, successCount := 0, failureCount := 0,
               lastUsedDomains := [] }],
          index := 0, domainCooldownSeconds := 30 } "a.com" 0).1 =
      some { url := "p1", isHealthy := true, successCount := 0, failureCount := 0,
             lastUsedDomains := [("a.com", 0)] } := by
  have h :=
    (C7_proxy_select
        { proxies :=
            [{ url := "p1", isHealthy := true, successCount := 0, failureCount := 0,
               lastUsedDomains := [] },
             { url := "p2", isHealthy := true, successCount := 0, failureCount := 0,
               lastUsedDomains := [] }],
          index := 0, domainCooldownSeconds := 30 } "a.com" 0 (by decide) (by decide)).1
      0 (by decide) (fun j hj => absurd hj (by omega)) (by decide)
  rcases h with ⟨p, hp, heq, _⟩
  have hp2 : p =
      { url := "p1", isHealthy := true, successCount := 0, failureCount := 0,
        lastUsedDomains := [] } := by
    simpa using hp.symm
  subst hp2
  rw [heq]
  rfl

/-- C10: when `select` fails with `no-healthy-proxies` on a non-empty
pool, the manager state is unchanged: no proxy is modified and the cursor,
having advanced exactly `len(pool)` steps modulo `len(pool)`, equals its
pre-call value. -/
theorem C10_select_failure_state (st : ProxyManagerState) (domain : String) (now : ℚ)
    (hne : st.proxies ≠ []) (hidx : st.index < st.proxies.length)
    (hfail : (proxySelect st domain now).1 = none) :
    (proxySelect st domain now).2 = st ∧
    (proxySelect st domain now).2.index =
      (st.index + st.proxies.length) % st.proxies.length := by
  have hempty : st.proxies.isEmpty = false := by
    rcases hp : st.proxies with _ | ⟨a, l⟩
    · exact absurd hp hne
    · rfl
  have hmain : (proxySelect st domain now).2 = st := by
    unfold proxySelect at hfail ⊢
    simp only [hempty, Bool.false_eq_true, if_false] at hfail ⊢
    rcases hsc : selectScan st.proxies st.domainCooldownSeconds domain now st.index
        st.proxies.length with ⟨r, idx1⟩
    rw [hsc] at hfail
    rcases r with _ | pos
    · have hc := selectScan_none_cursor st.proxies st.domainCooldownSeconds domain now hne
        st.proxies.length st.index idx1 hidx hsc
      rw [hc, Nat.add_mod_right, Nat.mod_eq_of_lt hidx]
    · exfalso
      have hposlt := selectScan_some_lt st.proxies st.domainCooldownSeconds domain now hne
        st.proxies.length st.index pos idx1 hsc
      rcases hg : st.proxies.get? pos with _ | p
      · exact absurd (List.get?_eq_none.mp hg) (by push_neg; exact hposlt)
      · simp only [List.get?_eq_getElem?] at hg
        simp [hg] at hfail
  refine ⟨hmain, ?_⟩
  rw [hmain, Nat.add_mod_right, Nat.mod_eq_of_lt hidx]

/-- C10 witness: a single unhealthy proxy; selection fails and the state,
cursor included, is exactly the pre-call state. -/
theorem C10_select_failure_witness :
    (proxySelect
        { proxies :=
            [{ url := "p1", isHealthy := false, successCount := 0, failureCount := 2,
               lastUsedDomains := [] }],
          index := 0, domainCooldownSeconds := 30 } "a.com" 5).2 =
      { proxies :=
          [{ url := "p1", isHealthy := false, successCount := 0, failureCount := 2,
             lastUsedDomains := [] }],
        index := 0, domainCooldownSeconds := 30 } := by
  exact (C10_select_failure_state
      { proxies :=
          [{ url := "p1", isHealthy := false, successCount := 0, failureCount := 2,
             lastUsedDomains := [] }],
        index := 0, domainCooldownSeconds := 30 } "a.com" 5 (by decide) (by decide)
      (by decide)).1

/-- C6: for every webhook delivery triggered by the job service (callback
URL present), the POSTed body is the payload serialized with sorted keys
and compact separators, the `X-Webhook-Signature` header is the hex
HMAC-SHA256 of the configured secret over exactly those body bytes, and
the payload's `results` field equals the full result array iff
`total_tasks ≤ 100`, and is `null` otherwise. -/
theorem C6_webhook_payload (hmacHex : String → String → String) (secret : String)
    (defaultUrl : Option String) (job : JobCounters) (jobId cb : String) (rs : List Json)
    (hcb : cb ≠ "") :
    ∃ (req : DeliverRequest) (p : Json),
      triggerWebhook hmacHex secret defaultUrl job jobId (some cb) (Json.arr rs) = some req ∧
      req.url = cb ∧
      req.body = dumps p ∧
      req.signatureHeader = hmacHex secret req.body ∧
      (p.lookupKey "results" = some (Json.arr rs) ↔ job.totalTasks ≤ 100) ∧
      (¬ job.totalTasks ≤ 100 → p.lookupKey "results" = some Json.null) := by
  have hstr : strOr (some cb) defaultUrl = some cb := by
    show (if cb ≠ "" then some cb else defaultUrl) = some cb
    rw [if_pos hcb]
  by_cases htot : job.totalTasks ≤ 100
  · refine
      ⟨{ url := cb,
         body := dumps (buildPayload jobId job.status.value
           (Json.obj
             [("total", .num (job.totalTasks : ℤ)),
              ("completed", .num (job.completedTasks : ℤ)),
              ("failed", .num (job.failedTasks : ℤ))])
           (some (Json.arr rs)) 0),
         contentType := "application/json",
         signatureHeader := hmacHex secret (dumps (buildPayload jobId job.status.value
           (Json.obj
             [("total", .num (job.totalTasks : ℤ)),
              ("completed", .num (job.completedTasks : ℤ)),
              ("failed", .num (job.failedTasks : ℤ))])
           (some (Json.arr rs)) 0)) },
       buildPayload jobId job.status.value
         (Json.obj
           [("total", .num (job.totalTasks : ℤ)), ("completed", .num (job.completedTasks : ℤ)),
            ("failed", .num (job.failedTasks : ℤ))])
         (some (Json.arr rs)) 0, ?_, rfl, rfl, rfl, ?_, ?_⟩
    · simp only [triggerWebhook, deliverBuild, hstr]
      rw [if_neg hcb, if_pos (show job.totalTasks ≤ webhookFullResultsLimit from htot)]
    · constructor
      · intro _; exact htot
      · intro _; rfl
    · intro hcontra; exact absurd htot hcontra
  · refine
      ⟨{ url := cb,
         body := dumps (buildPayload jobId job.status.value
           (Json.obj
             [("total", .num (job.totalTasks : ℤ)),
              ("completed", .num (job.completedTasks : ℤ)),
              ("failed", .num (job.failedTasks : ℤ))])
           none 0),
         contentType := "application/json",
         signatureHeader := hmacHex secret (dumps (buildPayload jobId job.status.value
           (Json.obj
             [("total", .num (job.totalTasks : ℤ)),
              ("completed", .num (job.completedTasks : ℤ)),
              ("failed", .num (job.failedTasks : ℤ))])
           none 0)) },
       buildPayload jobId job.status.value
         (Json.obj
           [("total", .num (job.totalTasks : ℤ)), ("completed", .num (job.completedTasks : ℤ)),
            ("failed", .num (job.failedTasks : ℤ))])
         none 0, ?_, rfl, rfl, rfl, ?_, ?_⟩
    · simp only [triggerWebhook, deliverBuild, hstr]
      rw [if_neg hcb, if_neg (show ¬ job.totalTasks ≤ webhookFullResultsLimit from htot)]
    · constructor
      · intro habs
        exfalso
        have h1 : (buildPayload jobId job.status.value
            (Json.obj
              [("total", Json.num (job.totalTasks : ℤ)),
               ("completed", Json.num (job.completedTasks : ℤ)),
               ("failed", Json.num (job.failedTasks : ℤ))])
            none 0).lookupKey "results" = some Json.null := rfl
        rw [h1] at habs
        cases Option.some.inj habs
      · intro h; exact absurd h htot
    · intro _; rfl

/-- C6 witness: a completed 2-task job with a callback URL; the delivery
exists, posts to the callback, and its signature is the HMAC of its own
body. -/
theorem C6_webhook_payload_witness :
    ∃ (req : DeliverRequest) (p : Json),
      triggerWebhook (fun s b => s ++ "|" ++ b) "sec" none
          { status := .completed, totalTasks := 2, completedTasks := 2, failedTasks := 0 }
          "J" (some "https://cb.example") (Json.arr []) = some req ∧
      req.url = "https://cb.example" ∧
      req.body = dumps p ∧
      req.signatureHeader = (fun s b => s ++ "|" ++ b) "sec" req.body ∧
      (p.lookupKey "results" = some (Json.arr []) ↔
        ({ status := .completed, totalTasks := 2, completedTasks := 2,
           failedTasks := 0 } : JobCounters).totalTasks ≤ 100) ∧
      (¬ ({ status := .completed, totalTasks := 2, completedTasks := 2,
            failedTasks := 0 } : JobCounters).totalTasks ≤ 100 →
        p.lookupKey "results" = some Json.null) :=
  C6_webhook_payload (fun s b => s ++ "|" ++ b) "sec" none
    { status := .completed, totalTasks := 2, completedTasks := 2, failedTasks := 0 }
    "J" "https://cb.example" [] (by decide)

/-- C9: a dequeued task whose parent job is cancelled is never handed to
the executor; if it is not already failed it is marked failed with error
"Cancelled" and a stamped `completed_at`, and the completion callback fires
exactly once; an already-failed task fires no callback. -/
theorem C9_cancelled_task_skip (cancelled : List String) (task : WorkerTask) (now : ℚ)
    (j : String) (hj : task.jobId = some j) (hne : j ≠ "") (hmem : j ∈ cancelled) :
    (∀ t', workerDispatch cancelled task now ≠ .executed t') ∧
    (task.status ≠ .failed →
      workerDispatch cancelled task now =
        .skippedCancelled
          { task with status := .failed, error := some "Cancelled", completedAt := some now }
          true) ∧
    (task.status = .failed →
      workerDispatch cancelled task now = .skippedCancelled task false) := by
  unfold workerDispatch
  rw [hj]
  by_cases hf : task.status = TaskStatus.failed <;> simp [hne, hmem, hf]

/-- C5 helper: the empty string trivially satisfies the tag invariant. -/
theorem noOpenTag_nil : NoOpenTag [] := by
  intro a b hab
  have := congrArg List.length hab
  simp at this
  omega

/-- C5 helper: a string without `>` satisfies the tag invariant. -/
theorem noOpenTag_of_not_mem (l : Str) (h : '>' ∉ l) : NoOpenTag l := by
  intro a b hab
  refine Or.inr (Or.inr ?_)
  intro hb
  exact h (by rw [hab]; exact List.mem_append.mpr (Or.inr (List.mem_cons_of_mem _ hb)))

/-- C5 helper: extend the tag invariant by one character on the left. -/
theorem noOpenTag_cons (c : Char) (l : Str) (h : NoOpenTag l)
    (hc : c = '<' → l = [] ∨ (∃ l2, l = '>' :: l2) ∨ '>' ∉ l) : NoOpenTag (c :: l) := by
  intro a b hab
  cases a with
  | nil =>
      simp at hab
      rcases hab with ⟨hc2, hb⟩
      subst hb
      exact hc hc2
  | cons a0 a1 =>
      simp at hab
      exact h a1 b hab.2

/-- C5 helper: the tag invariant passes to suffixes. -/
theorem noOpenTag_suffix (pre s : Str) (h : NoOpenTag (pre ++ s)) : NoOpenTag s := by
  intro a b hab
  exact h (pre ++ a) b (by rw [hab, List.append_assoc])

/-- C5 helper: the tag invariant passes to prefixes. -/
theorem noOpenTag_prefix (s post : Str) (h : NoOpenTag (s ++ post)) : NoOpenTag s := by
  intro a b hab
  rcases h a (b ++ post) (by rw [hab]; simp) with h1 | ⟨b2, h2⟩ | h3
  · left
    cases b with
    | nil => rfl
    | cons x xs => simp at h1
  · cases b with
    | nil => left; rfl
    | cons x xs =>
        right; left
        simp at h2
        exact ⟨xs, by rw [h2.1]⟩
  · right; right
    intro hb
    exact h3 (List.mem_append.mpr (Or.inl hb))

/-- C5 helper: `stripHtmlGo` always produces a string satisfying the tag
invariant, provided the pending buffer holds no `>`. -/
theorem stripHtmlGo_noOpenTag :
    ∀ (l : Str) (acc : Option Str), (∀ a, acc = some a → '>' ∉ a) →
      NoOpenTag (stripHtmlGo l acc) := by
  intro l
  induction l with
  | nil =>
      intro acc hacc
      cases acc with
      | none => exact noOpenTag_nil
      | some a =>
          show NoOpenTag ('<' :: a.reverse)
          have hrev : '>' ∉ a.reverse := by
            intro hmem
            exact hacc a rfl (List.mem_reverse.mp hmem)
          refine noOpenTag_cons _ _ (noOpenTag_of_not_mem _ hrev) ?_
          intro _
          exact Or.inr (Or.inr hrev)
  | cons c rest ih =>
      intro acc hacc
      cases acc with
      | none =>
          by_cases hc : c = '<'
          · show NoOpenTag (stripHtmlGo (c :: rest) none)
            unfold stripHtmlGo
            rw [if_pos hc]
            exact ih (some []) (by intro a ha hmem; cases ha; simp at hmem)
          · show NoOpenTag (stripHtmlGo (c :: rest) none)
            unfold stripHtmlGo
            rw [if_neg hc]
            refine noOpenTag_cons _ _ (ih none (by intro a ha; cases ha)) ?_
            intro h
            exact absurd h hc
      | some a =>
          have ha : '>' ∉ a := hacc a rfl
          show NoOpenTag (stripHtmlGo (c :: rest) (some a))
          unfold stripHtmlGo
          by_cases hc : c = '>'
          · rw [if_pos hc]
            by_cases hae : a.isEmpty
            · rw [if_pos hae]
              refine noOpenTag_cons _ _ ?_ ?_
              · refine noOpenTag_cons _ _ (ih none (by intro a2 ha2; cases ha2)) ?_
                intro hgt
                cases hgt
              · intro _
                exact Or.inr (Or.inl ⟨stripHtmlGo rest none, rfl⟩)
            · rw [if_neg hae]
              exact ih none (by intro a2 ha2; cases ha2)
          · rw [if_neg hc]
            refine ih (some (c :: a)) ?_
            intro a2 ha2
            cases ha2
            intro hmem
            rcases List.mem_cons.mp hmem with h1 | h2
            · exact hc h1.symm
            · exact ha h2

/-- C5 helper: characters of the whitespace-collapsed string are spaces or
characters of the input. -/
theorem mem_collapseWs :
    ∀ (n : ℕ) (l : Str), l.length = n → ∀ x, x ∈ collapseWs l → x = ' ' ∨ x ∈ l := by
  intro n
  induction n using Nat.strong_induction_on with
  | _ n ih =>
      intro l hlen x hx
      cases l with
      | nil => simp [collapseWs] at hx
      | cons c rest =>
          unfold collapseWs at hx
          by_cases hc : pyIsSpace c = true
          · rw [if_pos hc] at hx
            rcases List.mem_cons.mp hx with h1 | h2
            · exact Or.inl h1
            · rcases ih (rest.dropWhile pyIsSpace).length
                (by
                  have := List.Sublist.length_le (List.dropWhile_sublist (l := rest)
                    (p := pyIsSpace))
                  simp at hlen
                  omega)
                _ rfl x h2 with h3 | h4
              · exact Or.inl h3
              · exact Or.inr (List.mem_cons_of_mem _ ((List.dropWhile_sublist _).subset h4))
          · rw [if_neg hc] at hx
            rcases List.mem_cons.mp hx with h1 | h2
            · exact Or.inr (by rw [h1]; exact List.mem_cons_self _ _)
            · rcases ih rest.length (by simp at hlen; omega) rest rfl x h2 with h3 | h4
              · exact Or.inl h3
              · exact Or.inr (List.mem_cons_of_mem _ h4)

/-- C5 helper: whitespace collapsing preserves the tag invariant. -/
theorem collapseWs_noOpenTag :
    ∀ (n : ℕ) (l : Str), l.length = n → NoOpenTag l → NoOpenTag (collapseWs l) := by
  intro n
  induction n using Nat.strong_induction_on with
  | _ n ih =>
      intro l hlen h
      cases l with
      | nil =>
          simp only [collapseWs]
          exact noOpenTag_nil
      | cons c rest =>
          have hrest : NoOpenTag rest := noOpenTag_suffix [c] rest h
          unfold collapseWs
          by_cases hc : pyIsSpace c = true
          · rw [if_pos hc]
            have hrest2 : NoOpenTag (rest.dropWhile pyIsSpace) :=
              noOpenTag_suffix (rest.takeWhile pyIsSpace) _
                (by rw [List.takeWhile_append_dropWhile]; exact hrest)
            refine noOpenTag_cons _ _
              (ih (rest.dropWhile pyIsSpace).length
                (by
                  have := List.Sublist.length_le (List.dropWhile_sublist (l := rest)
                    (p := pyIsSpace))
                  simp at hlen
                  omega)
                _ rfl hrest2) ?_
            intro hsp
            cases hsp
          · rw [if_neg hc]
            refine noOpenTag_cons _ _
              (ih rest.length (by simp at hlen; omega) rest rfl hrest) ?_
            intro hlt
            rcases h [] rest (by rw [hlt]; rfl) with h1 | ⟨rest2, h2⟩ | h3
            · left
              rw [h1]
              simp only [collapseWs]
            · right; left
              have hcw : collapseWs ('>' :: rest2) = '>' :: collapseWs rest2 := by
                simp only [collapseWs]
                rw [if_neg (by decide)]
              exact ⟨collapseWs rest2, by rw [h2, hcw]⟩
            · right; right
              intro hmem
              rcases mem_collapseWs rest.length rest rfl '>' hmem with h4 | h5
              · cases h4
              · exact h3 h5

/-- C5 helper: a successful `tagRest` means a `>` occurs. -/
theorem tagRest_mem : ∀ (l : Str) (t : Str), tagRest l = some t → '>' ∈ l := by
  intro l
  induction l with
  | nil => intro t h; cases h
  | cons c cs ih =>
      intro t h
      unfold tagRest at h
      by_cases hc : c = '>'
      · rw [hc]; exact List.mem_cons_self _ _
      · rw [if_neg hc] at h
        exact List.mem_cons_of_mem _ (ih t h)

/-- C5 helper: the tag invariant means the tag regex has no match. -/
theorem hasTag_eq_false_of_noOpenTag : ∀ (l : Str), NoOpenTag l → hasTag l = false := by
  intro l
  induction l with
  | nil => intro _; rfl
  | cons c rest ih =>
      intro h
      have hrest : hasTag rest = false := ih (noOpenTag_suffix [c] rest h)
      unfold hasTag
      rw [hrest, Bool.or_false]
      by_cases hc : c = '<'
      · rcases hsc : scanTag rest with _ | t
        · simp [hsc]
        · exfalso
          rcases h [] rest (by rw [hc]; rfl) with h1 | ⟨rest2, h2⟩ | h3
          · rw [h1] at hsc; cases hsc
          · rw [h2] at hsc
            simp only [scanTag] at hsc
            simp at hsc
          · cases rest with
            | nil => cases hsc
            | cons c2 cs =>
                simp only [scanTag] at hsc
                by_cases hc2 : c2 = '>'
                · rw [if_pos hc2] at hsc; cases hsc
                · rw [if_neg hc2] at hsc
                  exact h3 (List.mem_cons_of_mem _ (tagRest_mem cs t hsc))
      · simp [hc]

/-- C5 helper: every string can be split as its trailing-trim plus the
trimmed-off whitespace run. -/
theorem dropTrailing_decomp (l : Str) :
    l = dropTrailing l ++ (l.reverse.takeWhile pyIsSpace).reverse := by
  unfold dropTrailing
  conv_lhs => rw [← List.reverse_reverse l]
  rw [← List.reverse_append, List.takeWhile_append_dropWhile]

/-- C5 helper: `clean_text` output satisfies the tag invariant; no
`<[^>]+>` substring remains. -/
theorem hasTag_cleanText (s : Str) : hasTag (cleanText s) = false := by
  have h1 : NoOpenTag (stripHtml s) :=
    stripHtmlGo_noOpenTag s none (by intro a ha; cases ha)
  have h2 : NoOpenTag (collapseWs (stripHtml s)) :=
    collapseWs_noOpenTag (stripHtml s).length _ rfl h1
  have h3 : NoOpenTag ((collapseWs (stripHtml s)).dropWhile pyIsSpace) :=
    noOpenTag_suffix ((collapseWs (stripHtml s)).takeWhile pyIsSpace) _
      (by rw [List.takeWhile_append_dropWhile]; exact h2)
  have h4 : NoOpenTag (cleanText s) := by
    show NoOpenTag (dropTrailing ((collapseWs (stripHtml s)).dropWhile pyIsSpace))
    exact noOpenTag_prefix _ _ (by rw [← dropTrailing_decomp]; exact h3)
  exact hasTag_eq_false_of_noOpenTag _ h4

/-- C5 helper: the first survivor of a `dropWhile` fails the predicate. -/
theorem head?_dropWhile_false (p : Char → Bool) :
    ∀ (l : Str) (c : Char), (l.dropWhile p).head? = some c → p c = false := by
  intro l
  induction l with
  | nil => intro c h; cases h
  | cons c0 rest ih =>
      intro c h
      rw [List.dropWhile_cons] at h
      by_cases h0 : p c0 = true
      · rw [if_pos h0] at h
        exact ih c h
      · rw [if_neg h0] at h
        cases h
        simpa using h0

/-- C5 helper: `dropWhile` is the identity when the head fails the
predicate. -/
theorem dropWhile_fix (p : Char → Bool) (l : Str)
    (h : ∀ c, l.head? = some c → p c = false) : l.dropWhile p = l := by
  cases l with
  | nil => rfl
  | cons c rest =>
      rw [List.dropWhile_cons, if_neg]
      rw [h c rfl]
      simp

/-- C5 helper: `dropWhile` is idempotent. -/
theorem dropWhile_idem (p : Char → Bool) (l : Str) :
    (l.dropWhile p).dropWhile p = l.dropWhile p :=
  dropWhile_fix p _ (fun c hc => head?_dropWhile_false p l c hc)

/-- C5 helper: a non-empty `dropWhile` keeps the last element. -/
theorem getLast?_dropWhile_ne_nil (p : Char → Bool) (l : Str)
    (h : l.dropWhile p ≠ []) : (l.dropWhile p).getLast? = l.getLast? := by
  conv_rhs => rw [← List.takeWhile_append_dropWhile (p := p) (l := l)]
  rw [List.getLast?_append_of_ne_nil _ h]

/-- C5 helper: `str.strip()` output has no leading and no trailing
whitespace — it equals its own trim. -/
theorem pyStrip_trim_fix (x : Str) :
    (pyStrip x).dropWhile pyIsSpace = pyStrip x ∧
    (pyStrip x).reverse.dropWhile pyIsSpace = (pyStrip x).reverse := by
  have hrev : (pyStrip x).reverse =
      (x.dropWhile pyIsSpace).reverse.dropWhile pyIsSpace := by
    show (dropTrailing (x.dropWhile pyIsSpace)).reverse = _
    unfold dropTrailing
    rw [List.reverse_reverse]
  constructor
  · apply dropWhile_fix
    intro c hc
    have h1 : pyStrip x =
        ((x.dropWhile pyIsSpace).reverse.dropWhile pyIsSpace).reverse := rfl
    rw [h1, List.head?_reverse] at hc
    have hne : (x.dropWhile pyIsSpace).reverse.dropWhile pyIsSpace ≠ [] := by
      intro h0
      rw [h0] at hc
      cases hc
    rw [getLast?_dropWhile_ne_nil _ _ hne, List.getLast?_reverse] at hc
    exact head?_dropWhile_false _ _ _ hc
  · rw [hrev]
    exact dropWhile_idem _ _

/-- C5 helper: facts about the uppercase hex digit of a value below 16. -/
theorem hexDigitChar_facts (n : ℕ) (h : n < 16) :
    isHexDigitChar (hexDigitChar n) = true ∧ hexVal (hexDigitChar n) = n ∧
    hexDigitChar n ≠ '&' ∧ hexDigitChar n ≠ '=' ∧ hexDigitChar n ≠ '?' ∧
    hexDigitChar n ≠ '+' ∧ hexDigitChar n ≠ '%' := by
  interval_cases n <;> exact ⟨by decide, by decide, by decide, by decide, by decide,
    by decide, by decide⟩

/-- C5 helper: characters emitted by `quote_plus` are never the query
metacharacters `&`, `=`, `?`. -/
theorem quotePlusChar_ne (c c2 : Char) (h : c2 ∈ quotePlusChar c) :
    c2 ≠ '&' ∧ c2 ≠ '=' ∧ c2 ≠ '?' := by
  unfold quotePlusChar at h
  by_cases h1 : isUrlSafe c = true
  · rw [if_pos h1] at h
    simp at h
    subst h
    refine ⟨?_, ?_, ?_⟩ <;> intro he <;> rw [he] at h1 <;> exact absurd h1 (by decide)
  · rw [if_neg h1] at h
    by_cases h2 : c = ' '
    · rw [if_pos h2] at h
      simp at h
      subst h
      exact ⟨by decide, by decide, by decide⟩
    · rw [if_neg h2] at h
      by_cases h3 : c.toNat < 256
      · rw [if_pos h3] at h
        have hd1 := hexDigitChar_facts (c.toNat / 16) (by omega)
        have hd2 := hexDigitChar_facts (c.toNat % 16) (by omega)
        simp at h
        rcases h with h | h | h <;> subst h
        · exact ⟨by decide, by decide, by decide⟩
        · exact ⟨hd1.2.2.1, hd1.2.2.2.1, hd1.2.2.2.2.1⟩
        · exact ⟨hd2.2.2.1, hd2.2.2.2.1, hd2.2.2.2.2.1⟩
      · rw [if_neg h3] at h
        simp at h
        subst h
        refine ⟨?_, ?_, ?_⟩ <;> intro he <;> rw [he] at h3 <;> exact h3 (by decide)

/-- C5 helper: the same, for a whole quoted string. -/
theorem mem_quotePlus_ne (k : Str) (c2 : Char) (h : c2 ∈ quotePlus k) :
    c2 ≠ '&' ∧ c2 ≠ '=' ∧ c2 ≠ '?' := by
  unfold quotePlus at h
  rcases List.mem_flatMap.mp h with ⟨c, _, hc⟩
  exact quotePlusChar_ne c c2 hc

/-- C5 helper: `unquote` passes a non-escape character through. -/
theorem percentDecode_cons_ne (c : Char) (l : Str) (hc : c ≠ '%') :
    percentDecode (c :: l) = c :: percentDecode l := by
  conv_lhs => rw [percentDecode.eq_def]
  split
  · rename_i heq
    exact absurd heq (by simp)
  · rename_i c2 cs2 heq
    injection heq with e1 e2
    subst e1
    subst e2
    rw [if_neg hc]

/-- C5 helper: `unquote` decodes a well-formed escape. -/
theorem percentDecode_escape (d1 d2 : Char) (l : Str) (h1 : isHexDigitChar d1 = true)
    (h2 : isHexDigitChar d2 = true) :
    percentDecode ('%' :: d1 :: d2 :: l) =
      Char.ofNat (16 * hexVal d1 + hexVal d2) :: percentDecode l := by
  conv_lhs => rw [percentDecode.eq_def]
  split
  · rename_i heq
    exact absurd heq (by simp)
  · rename_i c2 cs2 heq
    injection heq with e1 e2
    subst e1
    subst e2
    simp [h1, h2]

/-- C5 helper: decoding one quoted character (after the `+`-to-space map)
recovers it, whatever follows. -/
theorem percentDecode_quotePlusChar (c : Char) (R : Str) :
    percentDecode ((quotePlusChar c).map plusToSpace ++ R) = c :: percentDecode R := by
  unfold quotePlusChar
  by_cases h1 : isUrlSafe c = true
  · rw [if_pos h1]
    have hplus : plusToSpace c = c := by
      unfold plusToSpace
      rw [if_neg]
      intro he
      rw [he] at h1
      exact absurd h1 (by decide)
    simp only [List.map_cons, List.map_nil, hplus, List.cons_append, List.nil_append]
    exact percentDecode_cons_ne c R (fun he => by rw [he] at h1; exact absurd h1 (by decide))
  · rw [if_neg h1]
    by_cases h2 : c = ' '
    · rw [if_pos h2]
      subst h2
      show percentDecode (' ' :: R) = ' ' :: percentDecode R
      exact percentDecode_cons_ne ' ' R (by decide)
    · rw [if_neg h2]
      by_cases h3 : c.toNat < 256
      · rw [if_pos h3]
        have hd1 := hexDigitChar_facts (c.toNat / 16) (by omega)
        have hd2 := hexDigitChar_facts (c.toNat % 16) (by omega)
        have hm1 : plusToSpace '%' = '%' := by decide
        have hm2 : plusToSpace (hexDigitChar (c.toNat / 16)) = hexDigitChar (c.toNat / 16) := by
          unfold plusToSpace
          rw [if_neg hd1.2.2.2.2.2.1]
        have hm3 : plusToSpace (hexDigitChar (c.toNat % 16)) = hexDigitChar (c.toNat % 16) := by
          unfold plusToSpace
          rw [if_neg hd2.2.2.2.2.2.1]
        simp only [List.map_cons, List.map_nil, hm1, hm2, hm3, List.cons_append,
          List.nil_append]
        rw [percentDecode_escape _ _ _ hd1.1 hd2.1]
        rw [hd1.2.1, hd2.2.1, Nat.div_add_mod, Char.ofNat_toNat]
      · rw [if_neg h3]
        have hplus : plusToSpace c = c := by
          unfold plusToSpace
          rw [if_neg]
          intro he
          rw [he] at h3
          exact h3 (by decide)
        simp only [List.map_cons, List.map_nil, hplus, List.cons_append, List.nil_append]
        exact percentDecode_cons_ne c R (fun he => by rw [he] at h3; exact h3 (by decide))

/-- C5 helper: `parse_qsl`'s unquoting is a left inverse of `urlencode`'s
quoting. -/
theorem unquotePlus_quotePlus (k : Str) : unquotePlus (quotePlus k) = k := by
  induction k with
  | nil => rfl
  | cons c t ih =>
      show percentDecode ((quotePlus (c :: t)).map plusToSpace) = c :: t
      have hq : quotePlus (c :: t) = quotePlusChar c ++ quotePlus t := by
        simp [quotePlus]
      rw [hq, List.map_append, percentDecode_quotePlusChar]
      exact congrArg (List.cons c) ih

/-- C9 witness: a concrete queued task of a cancelled job is marked failed
"Cancelled" with a callback, and not executed. -/
theorem C9_cancelled_task_witness :
    workerDispatch ["J"]
        { jobId := some "J", status := .queued, error := none, completedAt := none } 7 =
      .skippedCancelled
        { jobId := some "J", status := .failed, error := some "Cancelled",
          completedAt := some 7 } true := by
  have h :=
    C9_cancelled_task_skip ["J"]
      { jobId := some "J", status := .queued, error := none, completedAt := none } 7 "J"
      rfl (by decide) (by simp)
  exact h.2.1 (by decide)

/-- C5 helper: `split` never returns an empty list of pieces. -/
theorem splitChar_ne_nil (sep : Char) (l : Str) : splitChar sep l ≠ [] := by
  cases l with
  | nil => simp [splitChar]
  | cons c rest =>
      by_cases hc : c = sep <;>
        cases h : splitChar sep rest <;>
          simp [splitChar, h, hc]

/-- C5 helper: `split` on a separator-free string is a singleton. -/
theorem splitChar_no_sep (sep : Char) (i : Str) (h : sep ∉ i) :
    splitChar sep i = [i] := by
  induction i with
  | nil => rfl
  | cons c rest ih =>
      have hc : ¬c = sep := fun he => h (by simp [he])
      have hr : sep ∉ rest := fun hm => h (List.mem_cons_of_mem _ hm)
      simp [splitChar, ih hr, hc]

/-- C5 helper: `split` peels a separator-free piece before a separator. -/
theorem splitChar_append_sep (sep : Char) (i r : Str) (h : sep ∉ i) :
    splitChar sep (i ++ sep :: r) = i :: splitChar sep r := by
  induction i with
  | nil =>
      cases hr : splitChar sep r with
      | nil => exact absurd hr (splitChar_ne_nil sep r)
      | cons h0 t0 => simp [splitChar, hr]
  | cons c rest ih =>
      have hc : ¬c = sep := fun he => h (by simp [he])
      have hr : sep ∉ rest := fun hm => h (List.mem_cons_of_mem _ hm)
      simp only [List.cons_append, splitChar]
      simp only [hc, if_false, ite_false, List.append_eq]
      rw [ih hr]

/-- C5 helper: `split` is a left inverse of `join` on non-empty lists of
separator-free items. -/
theorem splitChar_joinChar (sep : Char) (items : List Str) (hne : items ≠ [])
    (h : ∀ i ∈ items, sep ∉ i) :
    splitChar sep (joinChar sep items) = items := by
  induction items with
  | nil => exact absurd rfl hne
  | cons i t ih =>
      cases t with
      | nil => exact splitChar_no_sep sep i (h i (by simp))
      | cons i2 t2 =>
          have hj : joinChar sep (i :: i2 :: t2) = i ++ sep :: joinChar sep (i2 :: t2) := rfl
          rw [hj, splitChar_append_sep sep i _ (h i (by simp)),
            ih (by simp) (fun x hx => h x (List.mem_cons_of_mem _ hx))]

/-- C5 helper: `takeWhile` over an append stopping exactly at a marker. -/
theorem takeWhile_append_stop (p : Char → Bool) (a : Str) (c : Char) (b : Str)
    (ha : ∀ x ∈ a, p x = true) (hc : p c = false) :
    (a ++ c :: b).takeWhile p = a := by
  induction a with
  | nil => simp [List.takeWhile_cons, hc]
  | cons x rest ih =>
      have hx : p x = true := ha x (by simp)
      simp [List.takeWhile_cons, hx, ih (fun y hy => ha y (List.mem_cons_of_mem _ hy))]

/-- C5 helper: `dropWhile` over an append stopping exactly at a marker. -/
theorem dropWhile_append_stop (p : Char → Bool) (a : Str) (c : Char) (b : Str)
    (ha : ∀ x ∈ a, p x = true) (hc : p c = false) :
    (a ++ c :: b).dropWhile p = c :: b := by
  induction a with
  | nil => simp [List.dropWhile_cons, hc]
  | cons x rest ih =>
      have hx : p x = true := ha x (by simp)
      simp [List.dropWhile_cons, hx, ih (fun y hy => ha y (List.mem_cons_of_mem _ hy))]

/-- C5 helper: a URL with no `?` has no query keys. -/
theorem urlQueryKeys_no_query (l : Str) (h : ∀ x ∈ l, x ≠ '?') :
    urlQueryKeys l = [] := by
  unfold urlQueryKeys
  have hd : l.dropWhile (· ≠ '?') = [] := by
    rw [List.dropWhile_eq_nil_iff]
    intro x hx
    simp [h x hx]
  rw [hd]

/-- C5 helper: the query keys of `pre ++ '?' :: q` when `pre` has no `?`. -/
theorem urlQueryKeys_append (pre q : Str) (h : ∀ x ∈ pre, x ≠ '?') :
    urlQueryKeys (pre ++ '?' :: q) =
      (splitChar '&' q).filterMap (fun item =>
        if item.isEmpty then none
        else some (unquotePlus (item.takeWhile (· ≠ '=')))) := by
  unfold urlQueryKeys
  rw [dropWhile_append_stop _ pre '?' q (fun x hx => by simp [h x hx]) (by simp)]
  rfl

/-- C5 helper: every key read back from an `urlencode`d query belongs to
the encoded group list. -/
theorem encodeQuery_keys_mem (G : List (Str × List Str)) (k : Str)
    (hk : k ∈ (splitChar '&' (encodeQuery G)).filterMap (fun item =>
        if item.isEmpty then none
        else some (unquotePlus (item.takeWhile (· ≠ '='))))) :
    ∃ kv ∈ G, k = kv.1 := by
  have hmem : ∀ it ∈ (G.map (fun kv =>
      kv.2.map (fun v => quotePlus kv.1 ++ '=' :: quotePlus v))).flatten,
      ∃ kv ∈ G, ∃ v, it = quotePlus kv.1 ++ '=' :: quotePlus v := by
    intro it hit
    rcases List.mem_flatten.mp hit with ⟨grp, hgrp, hin⟩
    rcases List.mem_map.mp hgrp with ⟨kv, hkv, rfl⟩
    rcases List.mem_map.mp hin with ⟨v, _, rfl⟩
    exact ⟨kv, hkv, v, rfl⟩
  have hnosep : ∀ it ∈ (G.map (fun kv =>
      kv.2.map (fun v => quotePlus kv.1 ++ '=' :: quotePlus v))).flatten, '&' ∉ it := by
    intro it hit hc
    rcases hmem it hit with ⟨kv, _, v, rfl⟩
    rcases List.mem_append.mp hc with h1 | h1
    · exact (mem_quotePlus_ne _ _ h1).1 rfl
    · rcases List.mem_cons.mp h1 with h2 | h2
      · exact absurd h2 (by decide)
      · exact (mem_quotePlus_ne _ _ h2).1 rfl
  unfold encodeQuery at hk
  cases hit : (G.map (fun kv =>
      kv.2.map (fun v => quotePlus kv.1 ++ '=' :: quotePlus v))).flatten with
  | nil =>
      rw [hit] at hk
      simp [joinChar, splitChar] at hk
  | cons i0 t0 =>
      rw [hit] at hk
      rw [splitChar_joinChar '&' (i0 :: t0) (by simp)
        (by rw [← hit]; exact hnosep)] at hk
      rcases List.mem_filterMap.mp hk with ⟨item, hitem, heq⟩
      have hitem2 : item ∈ (G.map (fun kv =>
          kv.2.map (fun v => quotePlus kv.1 ++ '=' :: quotePlus v))).flatten := by
        rw [hit]
        exact hitem
      rcases hmem item hitem2 with ⟨kv, hkv, v, hv⟩
      subst hv
      rw [if_neg (by simp)] at heq
      rw [takeWhile_append_stop _ _ '=' _
        (fun x hx => by simp [(mem_quotePlus_ne kv.1 x hx).2.1]) (by simp)] at heq
      rw [unquotePlus_quotePlus] at heq
      exact ⟨kv, hkv, (Option.some.inj heq).symm⟩

/-- C5 helper: every key read back from a rewritten query is
non-tracking. -/
theorem rewriteQuery_keys (q : Str) (k : Str)
    (hk : k ∈ (splitChar '&' (rewriteQuery q)).filterMap (fun item =>
        if item.isEmpty then none
        else some (unquotePlus (item.takeWhile (· ≠ '='))))) :
    isTrackingKey k = false := by
  unfold rewriteQuery at hk
  by_cases hq : q.isEmpty = true
  · rw [if_pos hq] at hk
    simp [splitChar] at hk
  · rw [if_neg hq] at hk
    rcases encodeQuery_keys_mem (filterTracking (parseQs q)) k hk with ⟨kv, hkv, rfl⟩
    have hkv2 : kv ∈ (parseQs q).filter (fun kv => !(isTrackingKey kv.1)) := hkv
    have := (List.mem_filter.mp hkv2).2
    simpa using this

/-- C5 helper: `urlunsplit` keys come only from the query component. -/
theorem unsplitHttps_keys (netloc path newQuery : Str)
    (hnet : ∀ x ∈ netloc, x ≠ '?') (hpath : ∀ x ∈ path, x ≠ '?') :
    urlQueryKeys (unsplitHttps netloc path newQuery) =
      if newQuery.isEmpty then ([] : List Str)
      else (splitChar '&' newQuery).filterMap (fun item =>
        if item.isEmpty then none
        else some (unquotePlus (item.takeWhile (· ≠ '=')))) := by
  simp only [unsplitHttps]
  have hbody : ∀ x ∈ (if netloc.isEmpty && "//".data.isPrefixOf path then path
      else "//".data ++ netloc ++ path), x ≠ '?' := by
    intro x hx
    split at hx
    · exact hpath x hx
    · rcases List.mem_append.mp hx with h1 | h1
      · rcases List.mem_append.mp h1 with h2 | h2
        · intro he
          subst he
          exact absurd h2 (by decide)
        · exact hnet x h2
      · exact hpath x h1
  by_cases hq : newQuery.isEmpty = true
  · rw [if_pos hq, if_pos hq]
    apply urlQueryKeys_no_query
    intro x hx
    rw [List.append_nil] at hx
    rcases List.mem_append.mp hx with h1 | h1
    · intro he
      subst he
      exact absurd h1 (by decide)
    · exact hbody x h1
  · rw [if_neg hq, if_neg hq]
    apply urlQueryKeys_append
    intro x hx
    rcases List.mem_append.mp hx with h1 | h1
    · intro he
      subst he
      exact absurd h1 (by decide)
    · exact hbody x h1

/-- C5 helper: characters of `_splitparams`'s two outputs come from the
path. -/
theorem splitParams_mem (p : Str) (x : Char) :
    (x ∈ (splitParams p).1 → x ∈ p) ∧ (x ∈ (splitParams p).2 → x ∈ p) := by
  have htail : ∀ y ∈ (p.reverse.takeWhile (· ≠ '/')).reverse, y ∈ p := by
    intro y hy
    rw [List.mem_reverse] at hy
    have h2 := (List.takeWhile_sublist _).subset hy
    rwa [List.mem_reverse] at h2
  simp only [splitParams]
  split
  · split
    · constructor
      · intro hx
        rcases List.mem_append.mp hx with h1 | h1
        · exact (List.take_sublist _ _).subset h1
        · exact htail x ((List.takeWhile_sublist _).subset h1)
      · intro hx
        exact htail x
          ((List.dropWhile_sublist _).subset ((List.drop_sublist _ _).subset hx))
    · exact ⟨fun hx => hx, fun hx => absurd hx (by simp)⟩
  · constructor
    · intro hx
      exact (List.takeWhile_sublist _).subset hx
    · intro hx
      exact (List.dropWhile_sublist _).subset ((List.drop_sublist _ _).subset hx)

/-- C5 helper: characters of the params-reassembled path come from the
path, or are the `;` separator. -/
theorem paramsRoundtrip_mem (p : Str) (x : Char) (hx : x ∈ paramsRoundtrip p) :
    x = ';' ∨ x ∈ p := by
  simp only [paramsRoundtrip] at hx
  split at hx
  · split at hx
    · exact Or.inr ((splitParams_mem p x).1 hx)
    · rcases List.mem_append.mp hx with h1 | h1
      · exact Or.inr ((splitParams_mem p x).1 h1)
      · rcases List.mem_cons.mp h1 with h2 | h2
        · exact Or.inl h2
        · exact Or.inr ((splitParams_mem p x).2 h2)
  · exact Or.inr hx

/-- C5 helper: a successful `normalize_url` core run yields exactly the
`urlunsplit` of a `?`-free netloc, the params-reassembly of a `?`-free
path, and the rewritten query. -/
theorem normalizeUrlCore_shape (nf : Str → Bool) (w out : Str)
    (h : normalizeUrlCore nf w = some out) :
    ∃ netloc path q,
      out = unsplitHttps netloc (paramsRoundtrip path) (rewriteQuery q) ∧
        (∀ x ∈ netloc, x ≠ '?') ∧ (∀ x ∈ path, x ≠ '?') := by
  have hc : normalizeUrlCore nf w =
      (if netlocBracketsOk ((dropSchemePrefix ((ensureScheme w).filter
            (fun c => c ≠ '\t' && c ≠ '\r' && c ≠ '\n'))).takeWhile notNetlocEnd) &&
          !checknetlocRaises nf ((dropSchemePrefix ((ensureScheme w).filter
            (fun c => c ≠ '\t' && c ≠ '\r' && c ≠ '\n'))).takeWhile notNetlocEnd) then
        some (unsplitHttps
          ((dropSchemePrefix ((ensureScheme w).filter
            (fun c => c ≠ '\t' && c ≠ '\r' && c ≠ '\n'))).takeWhile notNetlocEnd)
          (paramsRoundtrip (((dropSchemePrefix ((ensureScheme w).filter
            (fun c => c ≠ '\t' && c ≠ '\r' && c ≠ '\n'))).dropWhile
              notNetlocEnd).takeWhile notPathEnd))
          (rewriteQuery (parseQueryPart (((dropSchemePrefix ((ensureScheme w).filter
            (fun c => c ≠ '\t' && c ≠ '\r' && c ≠ '\n'))).dropWhile
              notNetlocEnd).dropWhile notPathEnd))))
      else none) := rfl
  rw [hc] at h
  generalize hR : dropSchemePrefix ((ensureScheme w).filter
      (fun c => c ≠ '\t' && c ≠ '\r' && c ≠ '\n')) = R at h
  split at h
  · refine ⟨R.takeWhile notNetlocEnd, (R.dropWhile notNetlocEnd).takeWhile notPathEnd,
      parseQueryPart ((R.dropWhile notNetlocEnd).dropWhile notPathEnd),
      (Option.some.inj h).symm, ?_, ?_⟩
    · intro x hx he
      have h2 := List.mem_takeWhile_imp hx
      subst he
      exact absurd h2 (by decide)
    · intro x hx he
      have h2 := List.mem_takeWhile_imp hx
      subst he
      exact absurd h2 (by decide)
  · cases h

/-- C5 helper: every query key of a successfully normalized core URL is
non-tracking. -/
theorem normalizeUrlCore_keys (nf : Str → Bool) (w out : Str)
    (h : normalizeUrlCore nf w = some out) :
    ∀ k ∈ urlQueryKeys out, isTrackingKey k = false := by
  rcases normalizeUrlCore_shape nf w out h with ⟨netloc, path, q, rfl, hnet, hpath⟩
  have hp2 : ∀ x ∈ paramsRoundtrip path, x ≠ '?' := by
    intro x hx
    rcases paramsRoundtrip_mem path x hx with h1 | h1
    · subst h1
      decide
    · exact hpath x h1
  intro k hk
  rw [unsplitHttps_keys _ _ _ hnet hp2] at hk
  split at hk
  · cases hk
  · exact rewriteQuery_keys _ k hk

/-- C5 helper: `urlunsplit` output always starts with the scheme. -/
theorem unsplitHttps_https (n p q : Str) :
    "https:".data.isPrefixOf (unsplitHttps n p q) = true := by
  have h : unsplitHttps n p q = "https:".data ++
      ((if n.isEmpty && "//".data.isPrefixOf p then p else "//".data ++ n ++ p) ++
        (if q.isEmpty then [] else '?' :: q)) := by
    simp only [unsplitHttps]
    rw [List.append_assoc]
  rw [h, List.isPrefixOf_iff_prefix]
  exact List.prefix_append _ _

/-- C5 helper: a non-blank URL that normalizes successfully yields an
`https:`-prefixed string. -/
theorem normalizeUrl_https (nf : Str → Bool) (u out : Str)
    (h1 : (pyStrip u).isEmpty = false) (h2 : normalizeUrl nf u = some out) :
    "https:".data.isPrefixOf out = true := by
  have hcore : normalizeUrl nf u = normalizeUrlCore nf (pyStrip u) := by
    simp only [normalizeUrl]
    rw [if_neg (by simp [h1])]
  rw [hcore] at h2
  rcases normalizeUrlCore_shape nf _ out h2 with ⟨netloc, path, q, rfl, -, -⟩
  exact unsplitHttps_https _ _ _

/-- C5 helper: every query key of a successfully normalized URL is
non-tracking. -/
theorem normalizeUrl_keys (nf : Str → Bool) (u out : Str)
    (h : normalizeUrl nf u = some out) :
    ∀ k ∈ urlQueryKeys out, isTrackingKey k = false := by
  by_cases hs : (pyStrip u).isEmpty = true
  · have hnil : pyStrip u = [] := by simpa using hs
    have hout : normalizeUrl nf u = some [] := by
      simp only [normalizeUrl]
      rw [hnil]
      rfl
    rw [hout] at h
    have ho : out = [] := (Option.some.inj h).symm
    subst ho
    rw [urlQueryKeys_no_query [] (by simp)]
    intro k hk
    simp at hk
  · have hcore : normalizeUrl nf u = normalizeUrlCore nf (pyStrip u) := by
      simp only [normalizeUrl]
      rw [if_neg hs]
    rw [hcore] at h
    exact normalizeUrlCore_keys nf _ out h

/-- C5 (amended): in the normalizer's per-field loop, a string value in a
plain text field (neither a location nor a URL field) becomes `clean_text`
of the input, which contains no `<...>` tag substring and equals its own
trim (it is a fixpoint of leading and of trailing whitespace removal).  A
string value in a URL field goes through `normalize_url`, whose `urlparse`
call may raise `ValueError` (netloc bracket checks, `_checknetloc`), in
which case the normalizer produces no output at all; when it succeeds, the
field becomes the normalized URL, which starts with the `https:` scheme
whenever the stripped input is non-empty, and whose query string carries no
tracking key (no key in the fixed tracking set and none starting with
`utm_`).  The original claim's unconditional `https` scheme fails on blank
inputs, which normalize to the empty string. -/
theorem C5_normalizer_amended (nf : Str → Bool) (fs : FieldSets) (key : String)
    (s : Str) :
    (fs.locFields.contains key = false → fs.urlFields.contains key = false →
      normalizeValue nf fs key (.vStr s) = some (.nStr (cleanText s)) ∧
        hasTag (cleanText s) = false ∧
        (cleanText s).dropWhile pyIsSpace = cleanText s ∧
        (cleanText s).reverse.dropWhile pyIsSpace = (cleanText s).reverse) ∧
    (fs.locFields.contains key = false → fs.urlFields.contains key = true →
      normalizeValue nf fs key (.vStr s) = (normalizeUrl nf s).map .nStr ∧
        ∀ out, normalizeUrl nf s = some out →
          ((pyStrip s).isEmpty = false → "https:".data.isPrefixOf out = true) ∧
            ∀ k ∈ urlQueryKeys out, isTrackingKey k = false) := by
  constructor
  · intro hloc hurl
    refine ⟨?_, hasTag_cleanText s, (pyStrip_trim_fix (collapseWs (stripHtml s))).1,
      (pyStrip_trim_fix (collapseWs (stripHtml s))).2⟩
    have hl : ¬key ∈ fs.locFields := by simpa using hloc
    have hu : ¬key ∈ fs.urlFields := by simpa using hurl
    simp [normalizeValue, hl, hu]
  · intro hloc hurl
    have hl : ¬key ∈ fs.locFields := by simpa using hloc
    have hu : key ∈ fs.urlFields := by simpa using hurl
    refine ⟨?_, fun out hout =>
      ⟨fun hne => normalizeUrl_https nf s out hne hout,
        normalizeUrl_keys nf s out hout⟩⟩
    cases hn : normalizeUrl nf s <;> simp [normalizeValue, hl, hu, hn]

/-- C5 counterexample: a whitespace-only string in a URL field normalizes
to the empty string, which does not have the `https` scheme; and a URL
whose host part has a stray `[` (or balanced brackets around a non-IPv6
host) makes `urlparse` raise, so the normalizer yields no URL value at
all — not every normalized URL field has scheme `https`. -/
theorem C5_counterexample :
    normalizeValue (fun _ => false) linkedinProfileFields "profile_url"
        (.vStr " ".data) = some (.nStr []) ∧
    "https:".data.isPrefixOf ([] : Str) = false ∧
    normalizeValue (fun _ => false) linkedinProfileFields "profile_url"
        (.vStr "foo[bar".data) = none ∧
    normalizeValue (fun _ => false) linkedinProfileFields "profile_url"
        (.vStr "example[1].com/x".data) = none := by
  exact ⟨rfl, rfl, by decide, by decide⟩

/-- C5 witness: a concrete text field is cleaned and a concrete URL field
is normalized with the `https` scheme and its `utm_` key dropped. -/
theorem C5_normalizer_witness :
    (normalizeValue (fun _ => false) linkedinProfileFields "headline"
          (.vStr "  a  ".data) = some (.nStr (cleanText "  a  ".data)) ∧
      hasTag (cleanText "  a  ".data) = false ∧
      (cleanText "  a  ".data).dropWhile pyIsSpace = cleanText "  a  ".data ∧
      (cleanText "  a  ".data).reverse.dropWhile pyIsSpace =
        (cleanText "  a  ".data).reverse) ∧
    (normalizeValue (fun _ => false) linkedinProfileFields "profile_url"
          (.vStr "http://e.com/?utm_x=1&id=2".data) =
        (normalizeUrl (fun _ => false) "http://e.com/?utm_x=1&id=2".data).map .nStr ∧
      ∀ out, normalizeUrl (fun _ => false) "http://e.com/?utm_x=1&id=2".data =
          some out →
        ((pyStrip "http://e.com/?utm_x=1&id=2".data).isEmpty = false →
          "https:".data.isPrefixOf out = true) ∧
          ∀ k ∈ urlQueryKeys out, isTrackingKey k = false) :=
  ⟨(C5_normalizer_amended (fun _ => false) linkedinProfileFields "headline"
      "  a  ".data).1 (by decide) (by decide),
   (C5_normalizer_amended (fun _ => false) linkedinProfileFields "profile_url"
      "http://e.com/?utm_x=1&id=2".data).2 (by decide) (by decide)⟩

end Morket
